import Mathlib

/-!
Verification of the TF-Test upload/storage service.

The development shallowly embeds the storage subsystem of the repository:
the multi-backend chunked writer, the metadata upsert, the pending-disk
staging queue with its reconciliation loop, and the range-aware reader
(`src/unnamed/part_001`), together with the single-blob variant of the
server (`src/server.js`, second variant: `saveFileToDB`, `fetchFileFromDB`,
`genUniqueToken`, the startup merge).

Bytes are modelled as `Nat`, buffers as `List Nat`.  Database tables are
association lists, the in-memory `mappings` object is a function
`String → Option Entry`, and every fallible operation returns `Except` or
`Option` mirroring the JavaScript control flow (a caught exception is a
`none`/`.error`; `continue` is the recursive call on the tail).
-/

namespace TFTest

/-- A byte buffer (Node `Buffer`): a list of bytes. -/
abbrev Buffer := List Nat

/-- The per-token metadata record (`entry` object built in the upload
handlers: token, originalName, safeOriginal, size, mime, createdAt,
storage tag, optional probed duration). Timestamps are `Nat`. -/
structure Entry where
  token : String
  originalName : String
  safeOriginal : String
  size : Nat
  mime : String
  createdAt : Nat
  storage : String
  duration : Option Nat := none
deriving DecidableEq, Repr

/-- A row of the `uploads` table: `token TEXT PRIMARY KEY, data JSONB,
file_data BYTEA (nullable), created_at TIMESTAMPTZ`. -/
structure Row where
  token : String
  data : Entry
  fileData : Option Buffer
  createdAt : Nat
deriving DecidableEq, Repr

/-- One storage backend (a `poolInfo` of `src/unnamed/part_001`): its env
name, whether `pool.connect()` fails (`connectErr`), whether the chunk
insert transaction fails (`txErr`), whether the metadata upsert query
fails (`metaErr`), whether read queries succeed (`queryOk`), and its two
tables. A `some msg` error field is the message of the thrown error. -/
structure Pool where
  name : String
  connectErr : Option String := none
  txErr : Option String := none
  metaErr : Option String := none
  queryOk : Bool := true
  uploads : List Row := []
  chunkRows : List (String × Nat × Buffer) := []
deriving DecidableEq, Repr

/-- The slicing loop of `saveChunksToDBAcrossPools`
(`for (let offset=0; offset<buffer.length; offset += CHUNK_MAX_SIZE)
piece = buffer.slice(offset, min(offset+CHUNK_MAX_SIZE, length))`),
with fuel `buf.length` (the JS loop strictly advances when the chunk
size is positive). -/
def chunksOfAux (csize : Nat) : Nat → Buffer → List Buffer
  | 0, _ => []
  | _, [] => []
  | fuel + 1, b :: bs => (b :: bs).take csize :: chunksOfAux csize fuel ((b :: bs).drop csize)

/-- The list of chunk payloads that the writer persists for `buf`. -/
def chunksOf (csize : Nat) (buf : Buffer) : List Buffer :=
  chunksOfAux csize buf.length buf

/-- The chunk rows `(token, seq, chunk)` inserted for the pieces `cs`,
with sequence numbers counting up from `s` (the JS `seq++` counter). -/
def rowsOf (token : String) : Nat → List Buffer → List (String × Nat × Buffer)
  | _, [] => []
  | s, c :: cs => (token, s, c) :: rowsOf token (s + 1) cs

theorem chunksOfAux_join (csize : Nat) (hcs : 0 < csize) :
    ∀ (fuel : Nat) (buf : Buffer), buf.length ≤ fuel →
      (chunksOfAux csize fuel buf).flatten = buf := by
  intro fuel
  induction fuel with
  | zero =>
    intro buf h
    have hb : buf = [] := List.length_eq_zero.mp (Nat.le_zero.mp h)
    subst hb
    rfl
  | succ n ih =>
    intro buf h
    match buf with
    | [] => rfl
    | b :: bs =>
      have hlen : ((b :: bs).drop csize).length ≤ n := by
        simp only [List.length_drop]
        have : (b :: bs).length ≤ n + 1 := h
        omega
      simp only [chunksOfAux, List.flatten_cons, ih _ hlen, List.take_append_drop]

/-- The concatenation of the persisted chunk payloads is the original
buffer (for a positive chunk size). -/
theorem chunksOf_join (csize : Nat) (hcs : 0 < csize) (buf : Buffer) :
    (chunksOf csize buf).flatten = buf :=
  chunksOfAux_join csize hcs buf.length buf le_rfl

theorem chunksOfAux_length_le (csize : Nat) :
    ∀ (fuel : Nat) (buf : Buffer) (c : Buffer),
      c ∈ chunksOfAux csize fuel buf → c.length ≤ csize := by
  intro fuel
  induction fuel with
  | zero => intro buf c h; simp [chunksOfAux] at h
  | succ n ih =>
    intro buf c h
    match buf with
    | [] => simp [chunksOfAux] at h
    | b :: bs =>
      simp only [chunksOfAux, List.mem_cons] at h
      rcases h with h | h
      · subst h
        simp [Nat.min_le_left]
      · exact ih _ _ h

/-- No persisted chunk exceeds the configured maximum size. -/
theorem chunksOf_length_le (csize : Nat) (buf : Buffer) :
    ∀ c ∈ chunksOf csize buf, c.length ≤ csize := fun c hc =>
  chunksOfAux_length_le csize buf.length buf c hc

/-- The chunk-tier range loop of the `GET /TF-:token` handler
(`src/unnamed/part_001` lines 727-744): walk the chunk list, skipping
whole chunks while `remainingStart >= cl`, then slice
`chunks[i].slice(sliceStart, sliceEnd + 1)` with
`sliceEnd = min(cl - 1, sliceStart + remainingToSend - 1)`, decrement
`remainingToSend`, and continue with `remainingStart = 0` until either
the chunks or `remainingToSend` are exhausted. -/
def serveChunkRange : List Buffer → Nat → Nat → Buffer
  | [], _, _ => []
  | c :: rest, remStart, remToSend =>
    if remToSend = 0 then []
    else if c.length ≤ remStart then serveChunkRange rest (remStart - c.length) remToSend
    else
      (c.drop remStart).take (min (c.length - 1) (remStart + remToSend - 1) + 1 - remStart) ++
        serveChunkRange rest 0
          (remToSend - (min (c.length - 1) (remStart + remToSend - 1) + 1 - remStart))

/-- The chunk-walking loop writes exactly the window
`flatten(chunks)[s ... s+n)`: it agrees with slicing the logical
concatenation of the chunks, for every start offset and length. -/
theorem serveChunkRange_eq :
    ∀ (cs : List Buffer) (s n : Nat),
      serveChunkRange cs s n = (cs.flatten.drop s).take n := by
  intro cs
  induction cs with
  | nil => intro s n; simp [serveChunkRange]
  | cons c rest ih =>
    intro s n
    by_cases hn : n = 0
    · subst hn; simp [serveChunkRange]
    · by_cases hcs : c.length ≤ s
      · rw [serveChunkRange, if_neg hn, if_pos hcs, ih, List.flatten_cons,
          List.drop_append_eq_append_drop, List.drop_of_length_le hcs, List.nil_append]
      · have hs : s < c.length := Nat.lt_of_not_le hcs
        have hn' : 0 < n := Nat.pos_of_ne_zero hn
        rw [serveChunkRange, if_neg hn, if_neg hcs, ih, List.flatten_cons,
          List.drop_append_eq_append_drop, Nat.sub_eq_zero_of_le (Nat.le_of_lt hs),
          List.drop_zero, List.take_append_eq_append_take, List.length_drop]
        have h1 : (c.drop s).take (min (c.length - 1) (s + n - 1) + 1 - s) = (c.drop s).take n := by
          rw [List.take_eq_take, List.length_drop]
          omega
        have h2 : n - (min (c.length - 1) (s + n - 1) + 1 - s) = n - (c.length - s) := by
          omega
        rw [h1, h2]

/-- Insert a `(seq, chunk)` pair into a list sorted by `seq`. -/
def insertSeq (x : Nat × Buffer) : List (Nat × Buffer) → List (Nat × Buffer)
  | [] => [x]
  | y :: ys => if x.1 ≤ y.1 then x :: y :: ys else y :: insertSeq x ys

/-- `ORDER BY seq ASC` on the selected chunk rows, as a stable sort. -/
def sortBySeq : List (Nat × Buffer) → List (Nat × Buffer)
  | [] => []
  | x :: xs => insertSeq x (sortBySeq xs)

theorem sortBySeq_of_pairwise_le :
    ∀ (l : List (Nat × Buffer)), l.Pairwise (fun a b => a.1 ≤ b.1) → sortBySeq l = l := by
  intro l
  induction l with
  | nil => intro _; rfl
  | cons x xs ih =>
    intro h
    rw [List.pairwise_cons] at h
    rw [sortBySeq, ih h.2]
    match xs, h with
    | [], _ => rfl
    | y :: ys, ⟨hx, _⟩ => simp [insertSeq, hx y (List.mem_cons_self y ys)]

/-- The HTTP-facing response of a token read.  `full` is a `200` with the
whole body and its announced `Content-Length`; `partialContent` is a `206`
with `Content-Range: bytes start-stop/total` and the written body;
`notSatisfiable` is a `416` with `Content-Range: bytes */total`; `gone` is
the `410` of the blob variant; `serverError` a `500`. -/
inductive Resp where
  | full (body : Buffer) (contentLength : Nat)
  | partialContent (start stop total : Nat) (body : Buffer)
  | notSatisfiable (total : Nat)
  | notFound
  | gone
  | badToken
  | serverError
deriving DecidableEq, Repr

/-- `parseRange(rangeHeader, size)` of `src/unnamed/part_001`: the header
is already split into its two optional decimal fields (`bytes=(\d*)-(\d*)`,
`none` for an empty field; an absent or unparseable header is the outer
`none`).  An open start becomes `size - (end + 1)`, an open end becomes
`size - 1`; the result is `null` when both fields are empty, when
`s > e`, or when `s < 0`. -/
def parseRange (hdr : Option (Option Nat × Option Nat)) (size : Nat) : Option (Nat × Nat) :=
  match hdr with
  | none => none
  | some (none, none) => none
  | some (os, oe) =>
    let s : Int := match os with
      | some a => (a : Int)
      | none => (size : Int) - ((oe.getD 0 : Nat) : Int) - 1
    let e : Int := match oe with
      | some b => (b : Int)
      | none => (size : Int) - 1
    if e < s ∨ s < 0 then none else some (s.toNat, e.toNat)

/-- First `uploads` row for `token` in pool `p` (`SELECT ... WHERE token=$1`
on a primary-key column). -/
def rowFor (p : Pool) (token : String) : Option Row :=
  p.uploads.find? (fun r => r.token == token)

/-- `fetchFileDataFromPools`: first pool whose query succeeds and whose
`uploads` row for the token has a non-null `file_data`; query errors and
misses `continue` to the next pool. -/
def fetchFileDataFromPools : List Pool → String → Option Buffer
  | [], _ => none
  | p :: rest, token =>
    if p.queryOk then
      match rowFor p token with
      | some r =>
        match r.fileData with
        | some b => some b
        | none => fetchFileDataFromPools rest token
      | none => fetchFileDataFromPools rest token
    else fetchFileDataFromPools rest token

/-- The `(seq, chunk)` rows `SELECT seq, chunk FROM file_chunks WHERE
token=$1 ORDER BY seq ASC` returns against one pool. -/
def chunkRowsFor (p : Pool) (token : String) : List (Nat × Buffer) :=
  sortBySeq (p.chunkRows.filterMap
    (fun r => if r.1 == token then some (r.2.1, r.2.2) else none))

/-- `fetchAllChunksAcrossPools`: first pool whose query succeeds with a
non-zero row count; otherwise `{ rows: [] }`. -/
def fetchAllChunksAcrossPools : List Pool → String → List (Nat × Buffer)
  | [], _ => []
  | p :: rest, token =>
    if p.queryOk then
      match chunkRowsFor p token with
      | [] => fetchAllChunksAcrossPools rest token
      | r :: rs => r :: rs
    else fetchAllChunksAcrossPools rest token

/-- A staged pair in the pending directory: the base file name, the
side-car descriptor (`none` when the `.json` file is absent) and the
binary payload (`none` when the `.bin` file is absent). -/
structure PendingFile where
  base : String
  meta : Option (String × Entry)
  bin : Option Buffer
deriving DecidableEq, Repr

/-- The pending-disk scan of the `GET` handler: iterate the `.json`
side-cars in directory order, parse each, and serve the first whose token
matches and whose sibling binary file exists; a matching side-car with a
missing binary is skipped. -/
def findPending : List PendingFile → String → Option Buffer
  | [], _ => none
  | f :: rest, token =>
    match f.meta with
    | some (t, _) =>
      if t == token then
        match f.bin with
        | some b => some b
        | none => findPending rest token
      else findPending rest token
    | none => findPending rest token

/-- The `GET /TF-:token` handler of `src/unnamed/part_001` (range-aware,
three tiers): try the consolidated `file_data` blob across pools, then the
chunk rows across pools, then the pending directory; each tier validates
the parsed range against its own resolved size, answering `416` with the
true total when `start >= size || end >= size`, `206` with the sliced
window for a satisfiable range, `200` with the whole body otherwise, and
falls through to `404` when no tier has the token. -/
def serveTF (pools : List Pool) (dir : List PendingFile) (token : String)
    (hdr : Option (Option Nat × Option Nat)) : Resp :=
  if token == "" then .badToken
  else
    match fetchFileDataFromPools pools token with
    | some buf =>
      match parseRange hdr buf.length with
      | some se =>
        if buf.length ≤ se.1 ∨ buf.length ≤ se.2 then .notSatisfiable buf.length
        else .partialContent se.1 se.2 buf.length ((buf.drop se.1).take (se.2 + 1 - se.1))
      | none => .full buf buf.length
    | none =>
      match fetchAllChunksAcrossPools pools token with
      | r :: rs =>
        let chunks := ((r :: rs).map (fun x => x.2))
        let total := (chunks.map List.length).sum
        match parseRange hdr total with
        | none => .full chunks.flatten total
        | some se =>
          if total ≤ se.1 ∨ total ≤ se.2 then .notSatisfiable total
          else .partialContent se.1 se.2 total (serveChunkRange chunks se.1 (se.2 - se.1 + 1))
      | [] =>
        match findPending dir token with
        | some pbuf =>
          match parseRange hdr pbuf.length with
          | some se =>
            if pbuf.length ≤ se.1 ∨ pbuf.length ≤ se.2 then .notSatisfiable pbuf.length
            else .partialContent se.1 se.2 pbuf.length
              ((pbuf.drop se.1).take (se.2 + 1 - se.1))
          | none => .full pbuf pbuf.length
        | none => .notFound

/-- The error with which pool `p` rejects a chunk-save attempt: the
`connect` failure if any, otherwise the transaction failure; `none` means
the whole `BEGIN`/`INSERT ...`/`COMMIT` block succeeds. -/
def poolChunksErr (p : Pool) : Option String :=
  match p.connectErr with
  | some e => some e
  | none => p.txErr

/-- A successful chunk-save transaction against pool `p`: the slicing
loop inserts `(token, seq, piece)` rows with `seq` counting up from 0. -/
def storeChunks (csize : Nat) (token : String) (buf : Buffer) (p : Pool) : Pool :=
  { p with chunkRows := p.chunkRows ++ rowsOf token 0 (chunksOf csize buf) }

/-- The pool loop of `saveChunksToDBAcrossPools`: on the first pool that
connects and commits, return the updated pools and the pool's name; a
failing pool updates `lastErr` and continues; when the pools are
exhausted, throw `lastErr` (or the generic aggregate message). -/
def saveChunksGo (csize : Nat) (token : String) (buf : Buffer) :
    List Pool → Option String → Except String (List Pool × String)
  | [], last =>
    .error (match last with
      | some e => e
      | none => "All DB pools failed to save chunks")
  | p :: rest, _last =>
    match poolChunksErr p with
    | none => .ok (storeChunks csize token buf p :: rest, p.name)
    | some e =>
      match saveChunksGo csize token buf rest (some e) with
      | .ok (ps, n) => .ok (p :: ps, n)
      | .error er => .error er

/-- `saveChunksToDBAcrossPools(token, buffer)`: throws
`'No DB pools available'` when no pool is configured, otherwise tries the
pools in configured priority order. -/
def saveChunksToDBAcrossPools (csize : Nat) (token : String) (buf : Buffer)
    (pools : List Pool) : Except String (List Pool × String) :=
  match pools with
  | [] => .error "No DB pools available"
  | p :: rest => saveChunksGo csize token buf (p :: rest) none

/-- `INSERT ... ON CONFLICT (token) DO UPDATE` semantics over a table:
if a row with the token exists it is updated in place via `upd`,
otherwise the fresh row `mk` is appended. -/
def upsertRowWith (tbl : List Row) (token : String) (mk : Row) (upd : Row → Row) : List Row :=
  if tbl.any (fun r => r.token == token) then
    tbl.map (fun r => if r.token == token then upd r else r)
  else tbl ++ [mk]

/-- The metadata upsert `INSERT INTO uploads (token, data, created_at)
VALUES ($1,$2::jsonb,NOW()) ON CONFLICT (token) DO UPDATE SET
data = $2::jsonb, created_at = NOW()` — `file_data` is untouched on
update and null on insert. -/
def upsertMeta (tbl : List Row) (token : String) (e : Entry) (now : Nat) : List Row :=
  upsertRowWith tbl token ⟨token, e, none, now⟩ (fun r => ⟨token, e, r.fileData, now⟩)

/-- The blob upsert of `saveFileToDB` (`src/server.js`):
`INSERT INTO uploads (token, data, file_data, created_at) VALUES
($1,$2::jsonb,$3,NOW()) ON CONFLICT (token) DO UPDATE SET data = $2::jsonb,
file_data = $3, created_at = NOW()`. -/
def upsertFile (tbl : List Row) (token : String) (e : Entry) (buf : Buffer)
    (now : Nat) : List Row :=
  upsertRowWith tbl token ⟨token, e, some buf, now⟩ (fun _ => ⟨token, e, some buf, now⟩)

/-- The pool loop of `saveMappingMetadataToDBAcrossPools`: upsert the
metadata row into the first pool that accepts, else aggregate the last
error. -/
def saveMetaGo (token : String) (e : Entry) (now : Nat) :
    List Pool → Option String → Except String (List Pool × String)
  | [], last =>
    .error (match last with
      | some er => er
      | none => "All DB pools failed to save metadata")
  | p :: rest, _last =>
    match p.metaErr with
    | none => .ok ({ p with uploads := upsertMeta p.uploads token e now } :: rest, p.name)
    | some er =>
      match saveMetaGo token e now rest (some er) with
      | .ok (ps, n) => .ok (p :: ps, n)
      | .error e2 => .error e2

/-- `saveMappingMetadataToDBAcrossPools(token, entry)`: returns `null`
without writing when no pool is configured, otherwise writes to the first
accepting pool. -/
def saveMappingMetadataToDBAcrossPools (token : String) (e : Entry) (now : Nat)
    (pools : List Pool) : Except String (List Pool × Option String) :=
  match pools with
  | [] => .ok ([], none)
  | p :: rest =>
    match saveMetaGo token e now (p :: rest) none with
    | .ok (ps, n) => .ok (ps, some n)
    | .error er => .error er

/-- The name `pending-${token}-${Date.now()}.bin` of a staged binary. -/
def pendingName (token : String) (now : Nat) : String :=
  "pending-" ++ token ++ "-" ++ toString now ++ ".bin"

/-- The process state the upload and reconciliation paths touch: the DB
pools, the pending directory, and the in-memory `mappings` object. -/
structure SysState where
  pools : List Pool
  pendingDir : List PendingFile
  mappings : String → Option Entry

/-- `mappings[token] = entry` on the in-memory object. -/
def objSet (m : String → Option Entry) (t : String) (e : Entry) : String → Option Entry :=
  fun t' => if t' == t then some e else m t'

/-- Result of the DB-save section of `POST /upload`: both outcomes are a
`200` JSON carrying the token (`okPending` additionally carries the
`saved-locally-pending-db` note). -/
inductive UploadResp where
  | okDb (token storage : String)
  | okPending (token : String)
deriving DecidableEq, Repr

/-- The DB-save section of the `POST /upload` handler
(`src/unnamed/part_001` lines 578-611): try
`saveChunksToDBAcrossPools`; on success upsert the metadata (failures
swallowed), tag the cached entry with the accepting pool's name, and
answer success.  When every pool failed, stage the buffer and the
side-car descriptor to the pending directory (the side-car still carries
the entry as it was, i.e. `storage: 'db'`), retag the cached entry
`pending_disk`, and still answer success. -/
def uploadSave (csize : Nat) (token : String) (entry : Entry) (buf : Buffer)
    (now : Nat) (st : SysState) : SysState × UploadResp :=
  match saveChunksToDBAcrossPools csize token buf st.pools with
  | .ok (pools1, storedOn) =>
    let pools2 := match saveMappingMetadataToDBAcrossPools token entry now pools1 with
      | .ok (ps, _) => ps
      | .error _ => pools1
    ({ pools := pools2, pendingDir := st.pendingDir,
       mappings := objSet st.mappings token { entry with storage := storedOn } },
     .okDb token storedOn)
  | .error _ =>
    ({ pools := st.pools,
       pendingDir := st.pendingDir ++
         [{ base := pendingName token now, meta := some (token, entry), bin := some buf }],
       mappings := objSet st.mappings token { entry with storage := "pending_disk" } },
     .okPending token)

/-- `attemptFlushPendingOneToPools(fileBaseName)`: if either of the two
sibling files is missing, return `false`; otherwise replay the staged
buffer as a normal chunked write, upsert the side-car metadata (failures
swallowed), unlink both files and return `true`; a failed replay leaves
everything in place and returns `false`. -/
def attemptFlushPendingOneToPools (csize : Nat) (now : Nat) (base : String)
    (pools : List Pool) (dir : List PendingFile) :
    List Pool × List PendingFile × Bool :=
  match dir.find? (fun f => f.base == base) with
  | none => (pools, dir, false)
  | some f =>
    match f.meta, f.bin with
    | some (tok, ent), some buffer =>
      match saveChunksToDBAcrossPools csize tok buffer pools with
      | .error _ => (pools, dir, false)
      | .ok (pools1, _) =>
        let pools2 := match saveMappingMetadataToDBAcrossPools tok ent now pools1 with
          | .ok (ps, _) => ps
          | .error _ => pools1
        (pools2, dir.filter (fun g => g.base != base), true)
    | _, _ => (pools, dir, false)

/-- One pass of `pendingRetryLoop`: enumerate the non-`.json` entries of
the pending directory and `attemptFlushPendingOneToPools` each in turn. -/
def pendingRetryPass (csize : Nat) (now : Nat) (pools : List Pool)
    (dir : List PendingFile) : List Pool × List PendingFile :=
  ((dir.filter (fun f => f.bin.isSome)).map (fun f => f.base)).foldl
    (fun acc b =>
      let r := attemptFlushPendingOneToPools csize now b acc.1 acc.2
      (r.1, r.2.1))
    (pools, dir)

/-- JavaScript `haystack.includes(needle)`: substring containment. -/
def strContains (hay needle : String) : Bool :=
  hay.toList.tails.any (fun t => needle.toList.isPrefixOf t)

/-- The error classification of `saveFileToDB` (`src/server.js`):
`msg.includes('column "file_data"') || msg.includes('does not exist')`
triggers the migrate-then-retry-once cycle. -/
def isSchemaMsg (msg : String) : Bool :=
  strContains msg "column \"file_data\"" || strContains msg "does not exist"

/-- A pool as `saveFileToDB` exercises it: the outcome of the first
upsert attempt (`none` = success) and, when the first attempt fails with
a schema-mismatch message, the outcome of the retry after running the
migrations on that pool. -/
structure PoolW where
  name : String
  firstErr : Option String := none
  retryErr : Option String := none
deriving DecidableEq, Repr

/-- The error with which a pool finally rejects a `saveFileToDB` attempt
(`none` = the attempt, counting the one post-migration retry on a
schema-mismatch message, succeeds). -/
def poolFinalErr (p : PoolW) : Option String :=
  match p.firstErr with
  | none => none
  | some e => if isSchemaMsg e then p.retryErr else some e

/-- The pool loop of `saveFileToDB`: try the upsert against each pool in
order; a schema-mismatch failure runs the migrations on that pool and
retries the query once; any still-failing pool updates `lastErr` and
falls through to the next; exhaustion throws `lastErr`. -/
def saveFileGo : List PoolW → Option String → Except String String
  | [], last =>
    .error (match last with
      | some e => e
      | none => "All DB pools failed to save file")
  | p :: rest, _last =>
    match p.firstErr with
    | none => .ok p.name
    | some e =>
      if isSchemaMsg e then
        match p.retryErr with
        | none => .ok p.name
        | some e2 => saveFileGo rest (some e2)
      else saveFileGo rest (some e)

/-- `saveFileToDB(token, entry, buffer)` of `src/server.js`: throws
`'No database pools available'` when no pool is configured, otherwise
returns the name of the first pool that accepted the blob upsert. -/
def saveFileToDB (pools : List PoolW) : Except String String :=
  match pools with
  | [] => .error "No database pools available"
  | p :: rest => saveFileGo (p :: rest) none

/-- `fetchFileFromDB(token)` of `src/server.js`: first pool whose
`SELECT data, file_data FROM uploads WHERE token = $1` succeeds with a
row; the row is returned whether or not `file_data` is null. -/
def fetchFileFromDB : List Pool → String → Option (Entry × Option Buffer)
  | [], _ => none
  | p :: rest, token =>
    if p.queryOk then
      match rowFor p token with
      | some r => some (r.data, r.fileData)
      | none => fetchFileFromDB rest token
    else fetchFileFromDB rest token

/-- The `GET /TF-:token` handler of the DB variant in `src/server.js`
(lines 573-595): `500` when no pool is configured, `404` when no pool has
a row for the token, `410` when a row exists but its `file_data` is null,
and the full blob otherwise. -/
def serveDB (pools : List Pool) (token : String) : Resp :=
  match pools with
  | [] => .serverError
  | p :: rest =>
    match fetchFileFromDB (p :: rest) token with
    | none => .notFound
    | some (_, none) => .gone
    | some (_, some buf) => .full buf buf.length

/-- The collision-retry loop of `genUniqueToken` (`src/server.js` lines
44-56): `while (mappings[t] && tries < 50) { t = genToken(8); tries++ }`.
The random `genToken(8)` draws are the oracle `gen8` (draw `i` is
`gen8 i`); `remaining` counts the retries still allowed. -/
def genUniqueLoop (inCache : String → Bool) (gen8 : Nat → String) :
    Nat → Nat → String → String
  | _, 0, t => t
  | i, remaining + 1, t =>
    if inCache t then genUniqueLoop inCache gen8 (i + 1) remaining (gen8 i)
    else t

/-- `genUniqueToken()` of `src/server.js`: an initial 8-character draw,
up to 50 re-draws while the candidate is a key of the in-memory
`mappings` cache, then — if the final candidate still collides — a single
12-character draw (`gen12`) returned without any further cache check. -/
def genUniqueToken (inCache : String → Bool) (gen8 : Nat → String)
    (gen12 : String) : String :=
  let t := genUniqueLoop inCache gen8 1 50 (gen8 0)
  if inCache t then gen12 else t

/-- A row of the startup `SELECT token, data, created_at FROM uploads`. -/
structure DbRow where
  token : String
  data : Entry
  created_at : Nat
deriving DecidableEq, Repr

/-- `dbm[r.token].createdAt = r.created_at || dbm[r.token].createdAt`:
the entry's timestamp is overwritten by the column value unless the
column value is falsy. -/
def setCreatedAt (e : Entry) (c : Nat) : Entry :=
  { e with createdAt := if c = 0 then e.createdAt else c }

/-- One row of the startup merge loop: insert the row into `dbm` keyed by
token; on a collision the row replaces the stored entry iff its
`created_at` is at least the stored entry's (`newDate >= existingDate`). -/
def dbmInsert (dbm : String → Option Entry) (r : DbRow) : String → Option Entry :=
  fun t =>
    if t == r.token then
      match dbm r.token with
      | none => some (setCreatedAt r.data r.created_at)
      | some existing =>
        if existing.createdAt ≤ r.created_at then some (setCreatedAt r.data r.created_at)
        else some existing
    else dbm t

/-- The `dbm` map the startup IIFE builds from all pools' rows, scanned
in configured pool order. -/
def loadDbm (rows : List DbRow) : String → Option Entry :=
  rows.foldl dbmInsert (fun _ => none)

/-- `Object.assign({}, a, b)`: keys of `b` override keys of `a`. -/
def objAssign (a b : String → Option Entry) : String → Option Entry :=
  fun t => match b t with
    | some e => some e
    | none => a t

/-- The startup merge of `src/server.js` (line 461):
`mappings = Object.assign({}, mappings, dbm)` — the DB copy wins. -/
def startupMergeServerJs (disk dbm : String → Option Entry) : String → Option Entry :=
  objAssign disk dbm

/-- The startup merge of `src/unnamed/part_001` (line 378):
`mappings = Object.assign({}, dbm, mappings)` — the disk copy wins,
although the comment on line 377 says "DB is authoritative if present". -/
def startupMergePart001 (disk dbm : String → Option Entry) : String → Option Entry :=
  objAssign dbm disk

/-- State of the reconciliation-loop chains: `running` lists the chains
whose pass is currently in progress, `queued` the chains whose next pass
is scheduled (a pending `setTimeout` callback or a just-made top-level
invocation). -/
structure RLState where
  running : List Nat
  queued : List Nat
deriving DecidableEq, Repr

/-- Event-loop scheduling of `pendingRetryLoop`: a queued chain's pass
may begin whenever the event loop reaches it (a pass that flushes a
staged file suspends at its `await`s on backend I/O, so other macrotasks
— including another chain's scheduled pass — run in between); a running
chain's pass may complete, whereupon its `finally` block re-queues the
chain via `setTimeout(pendingRetryLoop, PENDING_RETRY_INTERVAL)`. -/
inductive RLStep : RLState → RLState → Prop where
  | passBegin (c : Nat) (r q₁ q₂ : List Nat) :
      RLStep ⟨r, q₁ ++ c :: q₂⟩ ⟨r ++ [c], q₁ ++ q₂⟩
  | passEnd (c : Nat) (r₁ r₂ q : List Nat) :
      RLStep ⟨r₁ ++ c :: r₂, q⟩ ⟨r₁ ++ r₂, q ++ [c]⟩

/-- Reachability under event-loop scheduling. -/
def RLReachable : RLState → RLState → Prop :=
  Relation.ReflTransGen RLStep

/-- The initial state of `src/unnamed/part_001`: `pendingRetryLoop()` is
invoked twice at module scope — once by the startup IIFE (line 397) and
once at top level (line 854) — so two independent self-rescheduling
chains are queued. -/
def rlInitTwo : RLState := ⟨[], [0, 1]⟩

/-- The initial state with the loop started only once. -/
def rlInitOne : RLState := ⟨[], [0]⟩

/-! ### Supporting lemmas: chunk rows written by the writer read back in order -/

/-- The `(seq, chunk)` pairs of the rows `rowsOf token s cs`. -/
def pairsOf : Nat → List Buffer → List (Nat × Buffer)
  | _, [] => []
  | s, c :: cs => (s, c) :: pairsOf (s + 1) cs

theorem rowsOf_filterMap (token : String) :
    ∀ (s : Nat) (cs : List Buffer),
      (rowsOf token s cs).filterMap
        (fun r => if r.1 == token then some (r.2.1, r.2.2) else none) = pairsOf s cs := by
  intro s cs
  induction cs generalizing s with
  | nil => rfl
  | cons c cs ih =>
    rw [rowsOf, List.filterMap_cons]
    have hb : (((token, s, c) : String × Nat × Buffer).1 == token) = true := by simp
    rw [hb]
    dsimp only []
    rw [ih (s + 1)]
    rfl

theorem pairsOf_map_snd : ∀ (s : Nat) (cs : List Buffer),
    (pairsOf s cs).map (fun x => x.2) = cs := by
  intro s cs
  induction cs generalizing s with
  | nil => rfl
  | cons c cs ih => simp [pairsOf, ih]

theorem pairsOf_le : ∀ (s : Nat) (cs : List Buffer) (x : Nat × Buffer),
    x ∈ pairsOf s cs → s ≤ x.1 := by
  intro s cs
  induction cs generalizing s with
  | nil => intro x h; simp [pairsOf] at h
  | cons c cs ih =>
    intro x h
    rcases List.mem_cons.mp h with h | h
    · subst h; exact le_rfl
    · exact Nat.le_of_succ_le (ih (s + 1) x h)

theorem pairsOf_pairwise (s : Nat) (cs : List Buffer) :
    (pairsOf s cs).Pairwise (fun a b => a.1 ≤ b.1) := by
  induction cs generalizing s with
  | nil => exact List.Pairwise.nil
  | cons c cs ih =>
    refine List.pairwise_cons.mpr ⟨fun x hx => ?_, ih (s + 1)⟩
    exact Nat.le_of_succ_le (pairsOf_le (s + 1) cs x hx)

theorem sortBySeq_pairsOf (s : Nat) (cs : List Buffer) :
    sortBySeq (pairsOf s cs) = pairsOf s cs :=
  sortBySeq_of_pairwise_le _ (pairsOf_pairwise s cs)

theorem chunkRowsFor_eq_nil (p : Pool) (token : String)
    (h : ∀ r ∈ p.chunkRows, r.1 ≠ token) : chunkRowsFor p token = [] := by
  have hf : p.chunkRows.filterMap
      (fun r => if r.1 == token then some (r.2.1, r.2.2) else none) = [] := by
    rw [List.filterMap_eq_nil_iff]
    intro r hr
    simp [h r hr]
  rw [chunkRowsFor, hf]
  rfl

/-- A fresh-token pool that accepted a chunked write reads its rows back
as exactly the written pieces, in sequence order. -/
theorem chunkRowsFor_storeChunks (csize : Nat) (p : Pool) (token : String) (buf : Buffer)
    (h : ∀ r ∈ p.chunkRows, r.1 ≠ token) :
    chunkRowsFor (storeChunks csize token buf p) token = pairsOf 0 (chunksOf csize buf) := by
  have hf : p.chunkRows.filterMap
      (fun r => if r.1 == token then some (r.2.1, r.2.2) else none) = [] := by
    rw [List.filterMap_eq_nil_iff]
    intro r hr
    simp [h r hr]
  rw [chunkRowsFor, storeChunks, List.filterMap_append, hf, List.nil_append,
    rowsOf_filterMap, sortBySeq_pairsOf]

theorem chunksOf_ne_nil (csize : Nat) (buf : Buffer) (h : buf ≠ []) :
    chunksOf csize buf ≠ [] := by
  match buf with
  | [] => exact absurd rfl h
  | b :: bs => simp [chunksOf, chunksOfAux]

theorem fetchAllChunks_skip (token : String) :
    ∀ (pre rest : List Pool), (∀ q ∈ pre, chunkRowsFor q token = []) →
      fetchAllChunksAcrossPools (pre ++ rest) token = fetchAllChunksAcrossPools rest token := by
  intro pre rest h
  induction pre with
  | nil => rfl
  | cons q pre ih =>
    have hq : chunkRowsFor q token = [] := h q (List.mem_cons_self q pre)
    have hrest : ∀ x ∈ pre, chunkRowsFor x token = [] :=
      fun x hx => h x (List.mem_cons_of_mem q hx)
    by_cases hqo : q.queryOk
    · simp only [List.cons_append, fetchAllChunksAcrossPools, hqo, if_true, hq]
      exact ih hrest
    · simp only [List.cons_append, fetchAllChunksAcrossPools, hqo, if_false]
      exact ih hrest

theorem fetchFileData_none (token : String) :
    ∀ (pools : List Pool),
      (∀ p ∈ pools, ∀ r, rowFor p token = some r → r.fileData = none) →
      fetchFileDataFromPools pools token = none := by
  intro pools h
  induction pools with
  | nil => rfl
  | cons p rest ih =>
    have hrest : ∀ q ∈ rest, ∀ r, rowFor q token = some r → r.fileData = none :=
      fun q hq => h q (List.mem_cons_of_mem p hq)
    by_cases hp : p.queryOk
    · match hr : rowFor p token with
      | none =>
        rw [fetchFileDataFromPools, if_pos hp, hr]
        exact ih hrest
      | some r =>
        have hfd := h p (List.mem_cons_self p rest) r hr
        rw [fetchFileDataFromPools, if_pos hp, hr]
        dsimp only []
        rw [hfd]
        exact ih hrest
    · rw [fetchFileDataFromPools, if_neg hp]
      exact ih hrest

/-- Forward decomposition of a successful `saveChunksGo`: success means
a first accepting pool `p` after a prefix of failing pools, only `p`'s
chunk table changed, and the returned name is `p`'s. -/
theorem saveChunksGo_ok (csize : Nat) (token : String) (buf : Buffer) :
    ∀ (pools : List Pool) (last : Option String) (ps : List Pool) (n : String),
      saveChunksGo csize token buf pools last = .ok (ps, n) →
      ∃ pre p post, pools = pre ++ p :: post ∧
        (∀ q ∈ pre, poolChunksErr q ≠ none) ∧ poolChunksErr p = none ∧
        n = p.name ∧ ps = pre ++ storeChunks csize token buf p :: post := by
  intro pools
  induction pools with
  | nil => intro last ps n h; simp [saveChunksGo] at h
  | cons p rest ih =>
    intro last ps n h
    match he : poolChunksErr p with
    | none =>
      rw [saveChunksGo, he] at h
      refine ⟨[], p, rest, rfl, by simp, he, ?_, ?_⟩
      · cases h; rfl
      · cases h; rfl
    | some e =>
      rw [saveChunksGo, he] at h
      dsimp only [] at h
      match hrec : saveChunksGo csize token buf rest (some e) with
      | .error er => rw [hrec] at h; cases h
      | .ok (ps2, n2) =>
        rw [hrec] at h
        dsimp only [] at h
        rw [Except.ok.injEq, Prod.mk.injEq] at h
        obtain ⟨hps, hn⟩ := h
        obtain ⟨pre, q, post, h1, h2, h3, h4, h5⟩ := ih (some e) ps2 n2 hrec
        refine ⟨p :: pre, q, post, by rw [h1]; rfl, ?_, h3, by rw [← hn]; exact h4,
          by rw [← hps, h5]; rfl⟩
        intro x hx
        rcases List.mem_cons.mp hx with hx | hx
        · subst hx; rw [he]; exact Option.some_ne_none e
        · exact h2 x hx

/-- Constructive direction: a failing prefix never aborts the loop — the
first accepting pool wins. -/
theorem saveChunksGo_first_ok (csize : Nat) (token : String) (buf : Buffer)
    (p : Pool) (hp : poolChunksErr p = none) :
    ∀ (pre post : List Pool), (∀ q ∈ pre, poolChunksErr q ≠ none) →
      ∀ last, saveChunksGo csize token buf (pre ++ p :: post) last =
        .ok (pre ++ storeChunks csize token buf p :: post, p.name) := by
  intro pre
  induction pre with
  | nil => intro post _ last; rw [List.nil_append, saveChunksGo, hp]; rfl
  | cons q pre ih =>
    intro post h last
    have hq : poolChunksErr q ≠ none := h q (List.mem_cons_self q pre)
    match he : poolChunksErr q with
    | none => exact absurd he hq
    | some e =>
      rw [List.cons_append, saveChunksGo, he]
      dsimp only []
      rw [ih post (fun x hx => h x (List.mem_cons_of_mem q hx)) (some e)]
      rfl

/-- All pools failing aggregates the last pool's error. -/
theorem saveChunksGo_all_fail (csize : Nat) (token : String) (buf : Buffer) :
    ∀ (pools : List Pool) (pl : Pool) (e : String), poolChunksErr pl = some e →
      (∀ q ∈ pools, poolChunksErr q ≠ none) →
      ∀ last, saveChunksGo csize token buf (pools ++ [pl]) last = .error e := by
  intro pools
  induction pools with
  | nil =>
    intro pl e he _ last
    rw [List.nil_append, saveChunksGo, he]
    rfl
  | cons q pools ih =>
    intro pl e he h last
    match hq : poolChunksErr q with
    | none => exact absurd hq (h q (List.mem_cons_self q pools))
    | some eq' =>
      rw [List.cons_append, saveChunksGo, hq]
      dsimp only []
      rw [ih pl e he (fun x hx => h x (List.mem_cons_of_mem q hx)) (some eq')]

/-! ### Evaluation lemmas for the reader -/

theorem parseRange_absent (size : Nat) : parseRange none size = none := rfl

/-- An explicit `bytes=s-e` header with `s ≤ e` parses to `(s, e)`
against every size. -/
theorem parseRange_explicit (s e size : Nat) (h : s ≤ e) :
    parseRange (some (some s, some e)) size = some (s, e) := by
  unfold parseRange
  dsimp only []
  have h1 : ¬((e : Int) < (s : Int) ∨ (s : Int) < 0) := by
    omega
  rw [if_neg h1]
  simp

theorem serveTF_blob_eval (pools : List Pool) (dir : List PendingFile) (token : String)
    (hdr : Option (Option Nat × Option Nat)) (buf : Buffer)
    (htok : (token == "") = false)
    (hb : fetchFileDataFromPools pools token = some buf) :
    serveTF pools dir token hdr =
      match parseRange hdr buf.length with
      | some se =>
        if buf.length ≤ se.1 ∨ buf.length ≤ se.2 then .notSatisfiable buf.length
        else .partialContent se.1 se.2 buf.length ((buf.drop se.1).take (se.2 + 1 - se.1))
      | none => .full buf buf.length := by
  unfold serveTF
  rw [htok, hb]
  rfl

theorem serveTF_chunks_eval (pools : List Pool) (dir : List PendingFile) (token : String)
    (hdr : Option (Option Nat × Option Nat)) (r : Nat × Buffer) (rs : List (Nat × Buffer))
    (htok : (token == "") = false)
    (hb : fetchFileDataFromPools pools token = none)
    (hc : fetchAllChunksAcrossPools pools token = r :: rs) :
    serveTF pools dir token hdr =
      (let chunks := (r :: rs).map (fun x => x.2)
       let total := (chunks.map List.length).sum
       match parseRange hdr total with
       | none => .full chunks.flatten total
       | some se =>
         if total ≤ se.1 ∨ total ≤ se.2 then .notSatisfiable total
         else .partialContent se.1 se.2 total (serveChunkRange chunks se.1 (se.2 - se.1 + 1))) := by
  unfold serveTF
  rw [htok, hb, hc]
  rfl

theorem serveTF_pending_eval (pools : List Pool) (dir : List PendingFile) (token : String)
    (hdr : Option (Option Nat × Option Nat)) (pbuf : Buffer)
    (htok : (token == "") = false)
    (hb : fetchFileDataFromPools pools token = none)
    (hc : fetchAllChunksAcrossPools pools token = [])
    (hp : findPending dir token = some pbuf) :
    serveTF pools dir token hdr =
      match parseRange hdr pbuf.length with
      | some se =>
        if pbuf.length ≤ se.1 ∨ pbuf.length ≤ se.2 then .notSatisfiable pbuf.length
        else .partialContent se.1 se.2 pbuf.length ((pbuf.drop se.1).take (se.2 + 1 - se.1))
      | none => .full pbuf pbuf.length := by
  unfold serveTF
  rw [htok, hb, hc, hp]
  rfl

theorem serveTF_notFound_eval (pools : List Pool) (dir : List PendingFile) (token : String)
    (hdr : Option (Option Nat × Option Nat))
    (htok : (token == "") = false)
    (hb : fetchFileDataFromPools pools token = none)
    (hc : fetchAllChunksAcrossPools pools token = [])
    (hp : findPending dir token = none) :
    serveTF pools dir token hdr = .notFound := by
  unfold serveTF
  rw [htok, hb, hc, hp]
  rfl

/-- `true` iff pool `p` holds no consolidated blob for `token` (no
`uploads` row, or a row whose `file_data` is null). -/
def poolHasNoBlob (p : Pool) (token : String) : Bool :=
  match rowFor p token with
  | none => true
  | some r => r.fileData.isNone

/-- `true` iff pool `p` holds no chunk row for `token`. -/
def poolNoChunksFor (p : Pool) (token : String) : Bool :=
  p.chunkRows.all (fun r => r.1 != token)

theorem poolHasNoBlob_row (p : Pool) (token : String)
    (h : poolHasNoBlob p token = true) :
    ∀ r, rowFor p token = some r → r.fileData = none := by
  intro r hr
  rw [poolHasNoBlob, hr] at h
  exact Option.isNone_iff_eq_none.mp h

theorem poolNoChunksFor_forall (p : Pool) (token : String)
    (h : poolNoChunksFor p token = true) :
    ∀ r ∈ p.chunkRows, r.1 ≠ token := by
  intro r hr
  exact bne_iff_ne.mp (List.all_eq_true.mp h r hr)

/-! ### C1 — full reads return the submitted payload -/

/-- C1 counterexample: an empty upload is "fully persisted" by the chunk
writer — `saveChunksToDBAcrossPools` commits zero chunk rows and reports
success on the first pool — yet reading the token back with no range
falls through every tier and answers `404 Not found` instead of the
(empty) payload with total size `0`. -/
theorem c1_empty_upload_counterexample :
    saveChunksToDBAcrossPools 8388608 "TOKEN0" [] [{ name := "DATABASE_URL" }] =
      .ok ([{ name := "DATABASE_URL" }], "DATABASE_URL") ∧
    serveTF [{ name := "DATABASE_URL" }] [] "TOKEN0" none = .notFound ∧
    serveTF [{ name := "DATABASE_URL" }] [] "TOKEN0" none ≠
      .full ([] : Buffer) (0 : Nat) := by
  refine ⟨rfl, by decide, by decide⟩

/-- C1 (amended): reading a stored token with no range returns the full
payload with its true total size, in all three tiers — the blob column,
the chunk sequence for a *nonempty* payload freshly persisted by
`saveChunksToDBAcrossPools` (an empty payload stores no rows and reads
back `404`), and the staged pending file. -/
theorem c1_full_read (csize : Nat) (hcs : 0 < csize) (token : String)
    (htok : token ≠ "") (pools pools1 : List Pool) (dir : List PendingFile)
    (buf : Buffer) (nm : String) :
    (∀ bbuf, fetchFileDataFromPools pools token = some bbuf →
      serveTF pools dir token none = .full bbuf bbuf.length) ∧
    (buf ≠ [] →
      (∀ p ∈ pools, poolNoChunksFor p token = true) →
      (∀ p ∈ pools, poolHasNoBlob p token = true) →
      (∀ p ∈ pools, p.queryOk = true) →
      saveChunksToDBAcrossPools csize token buf pools = .ok (pools1, nm) →
      serveTF pools1 dir token none = .full buf buf.length) ∧
    (∀ pbuf, fetchFileDataFromPools pools token = none →
      fetchAllChunksAcrossPools pools token = [] →
      findPending dir token = some pbuf →
      serveTF pools dir token none = .full pbuf pbuf.length) := by
  have hbeq : (token == "") = false := beq_eq_false_iff_ne.mpr htok
  refine ⟨?_, ?_, ?_⟩
  · intro bbuf hb
    rw [serveTF_blob_eval pools dir token none bbuf hbeq hb, parseRange_absent]
  · intro hbuf hnc hnb hq hsave
    match pools, hsave with
    | p0 :: rest0, hsave =>
      rw [saveChunksToDBAcrossPools] at hsave
      obtain ⟨pre, p, post, hdec, hpre, hpok, hname, hps⟩ :=
        saveChunksGo_ok csize token buf (p0 :: rest0) none pools1 nm hsave
      rw [hdec] at hnc hnb hq
      subst hps
      -- the freshly written pool reads back exactly the written pieces
      have hpmem : p ∈ pre ++ p :: post :=
        List.mem_append_right pre (List.mem_cons_self p post)
      have hncp : ∀ r ∈ p.chunkRows, r.1 ≠ token :=
        poolNoChunksFor_forall p token (hnc p hpmem)
      obtain ⟨c, cs, hcof⟩ : ∃ c cs, chunksOf csize buf = c :: cs := by
        match hco : chunksOf csize buf with
        | [] => exact absurd hco (chunksOf_ne_nil csize buf hbuf)
        | c :: cs => exact ⟨c, cs, rfl⟩
      have hrows : chunkRowsFor (storeChunks csize token buf p) token =
          (0, c) :: pairsOf 1 cs := by
        rw [chunkRowsFor_storeChunks csize p token buf hncp, hcof]
        rfl
      have hskip : ∀ q ∈ pre, chunkRowsFor q token = [] := by
        intro q hqm
        exact chunkRowsFor_eq_nil q token
          (poolNoChunksFor_forall q token (hnc q (List.mem_append_left _ hqm)))
      have hfetch : fetchAllChunksAcrossPools (pre ++ storeChunks csize token buf p :: post)
          token = (0, c) :: pairsOf 1 cs := by
        rw [fetchAllChunks_skip token pre _ hskip, fetchAllChunksAcrossPools]
        have hqok : (storeChunks csize token buf p).queryOk = true := hq p hpmem
        rw [if_pos hqok, hrows]
      have hnoblob : fetchFileDataFromPools (pre ++ storeChunks csize token buf p :: post)
          token = none := by
        apply fetchFileData_none
        intro q hqm
        rcases List.mem_append.mp hqm with hl | hr
        · exact poolHasNoBlob_row q token (hnb q (List.mem_append_left _ hl))
        · rcases List.mem_cons.mp hr with hh | ht
          · subst hh
            exact poolHasNoBlob_row p token (hnb p hpmem)
          · exact poolHasNoBlob_row q token
              (hnb q (List.mem_append_right _ (List.mem_cons_of_mem _ ht)))
      rw [serveTF_chunks_eval _ dir token none _ _ hbeq hnoblob hfetch]
      have hsnd : ((0, c) :: pairsOf 1 cs).map (fun x => x.2) = c :: cs := by
        rw [List.map_cons, pairsOf_map_snd]
      dsimp only []
      rw [hsnd, parseRange_absent]
      have hflat : (c :: cs).flatten = buf := by
        rw [← hcof]
        exact chunksOf_join csize hcs buf
      rw [hflat, ← List.length_flatten, hflat]
  · intro pbuf hb hc hp
    rw [serveTF_pending_eval pools dir token none pbuf hbeq hb hc hp, parseRange_absent]

/-- Witness for `c1_full_read`: a 3-byte payload written with chunk size
2 against one healthy pool reads back whole, and a staged pending pair
reads back whole. -/
theorem c1_full_read_witness :
    serveTF [{ name := "DATABASE_URL",
               chunkRows := [("T", 0, [1, 2]), ("T", 1, [3])] }] [] "T" none =
      .full [1, 2, 3] 3 ∧
    serveTF [] [{ base := "pending-T-0.bin", meta := some ("T", ⟨"T", "f", "f", 2, "m", 7, "db", none⟩),
                  bin := some [9, 8] }] "T" none = .full [9, 8] 2 := by
  constructor
  · exact (c1_full_read 2 (by decide) "T" (by decide) [{ name := "DATABASE_URL" }]
      [{ name := "DATABASE_URL", chunkRows := [("T", 0, [1, 2]), ("T", 1, [3])] }]
      [] [1, 2, 3] "DATABASE_URL").2.1 (by decide) (by decide) (by decide) (by decide)
      rfl
  · exact (c1_full_read 2 (by decide) "T" (by decide) []
      [] [{ base := "pending-T-0.bin", meta := some ("T", ⟨"T", "f", "f", 2, "m", 7, "db", none⟩),
            bin := some [9, 8] }] [] "X").2.2 [9, 8] (by decide) (by decide) (by decide)

/-! ### C2 — satisfiable ranged reads -/

/-- C2: for every stored token and satisfiable explicit range
`[s, e]` (`s ≤ e < total`), the ranged read answers `206` with exactly
`e - s + 1` bytes equal to bytes `s..e` of the full object and the true
total, in each of the three tiers: blob column, chunk sequence (sliced
across chunk boundaries), and pending disk file. -/
theorem c2_range_read (token : String) (htok : token ≠ "")
    (pools : List Pool) (dir : List PendingFile) (s e : Nat) (hse : s ≤ e) :
    (∀ buf, fetchFileDataFromPools pools token = some buf → e < buf.length →
      serveTF pools dir token (some (some s, some e)) =
        .partialContent s e buf.length ((buf.drop s).take (e - s + 1)) ∧
      ((buf.drop s).take (e - s + 1)).length = e - s + 1) ∧
    (∀ r rs, fetchFileDataFromPools pools token = none →
      fetchAllChunksAcrossPools pools token = r :: rs →
      e < (((r :: rs).map (fun x => x.2)).flatten).length →
      serveTF pools dir token (some (some s, some e)) =
        .partialContent s e (((r :: rs).map (fun x => x.2)).flatten).length
          (((((r :: rs).map (fun x => x.2)).flatten).drop s).take (e - s + 1)) ∧
      (((((r :: rs).map (fun x => x.2)).flatten).drop s).take (e - s + 1)).length =
        e - s + 1) ∧
    (∀ pbuf, fetchFileDataFromPools pools token = none →
      fetchAllChunksAcrossPools pools token = [] →
      findPending dir token = some pbuf → e < pbuf.length →
      serveTF pools dir token (some (some s, some e)) =
        .partialContent s e pbuf.length ((pbuf.drop s).take (e - s + 1)) ∧
      ((pbuf.drop s).take (e - s + 1)).length = e - s + 1) := by
  have hbeq : (token == "") = false := beq_eq_false_iff_ne.mpr htok
  have harith : e + 1 - s = e - s + 1 := by omega
  refine ⟨?_, ?_, ?_⟩
  · intro buf hb he
    have hsat : ¬(buf.length ≤ s ∨ buf.length ≤ e) := by omega
    rw [serveTF_blob_eval pools dir token _ buf hbeq hb,
      parseRange_explicit s e buf.length hse]
    refine ⟨by dsimp only []; rw [if_neg hsat, harith], ?_⟩
    rw [List.length_take, List.length_drop]
    omega
  · intro r rs hb hc he
    have hlen : (((r :: rs).map (fun x => x.2)).map List.length).sum =
        (((r :: rs).map (fun x => x.2)).flatten).length :=
      (List.length_flatten _).symm
    have hsat : ¬((((r :: rs).map (fun x => x.2)).map List.length).sum ≤ s ∨
        (((r :: rs).map (fun x => x.2)).map List.length).sum ≤ e) := by
      rw [hlen]
      omega
    rw [serveTF_chunks_eval pools dir token _ r rs hbeq hb hc]
    dsimp only []
    rw [parseRange_explicit s e _ hse]
    refine ⟨by dsimp only []; rw [if_neg hsat, serveChunkRange_eq, hlen], ?_⟩
    rw [List.length_take, List.length_drop]
    omega
  · intro pbuf hb hc hp he
    have hsat : ¬(pbuf.length ≤ s ∨ pbuf.length ≤ e) := by omega
    rw [serveTF_pending_eval pools dir token _ pbuf hbeq hb hc hp,
      parseRange_explicit s e pbuf.length hse]
    refine ⟨by dsimp only []; rw [if_neg hsat, harith], ?_⟩
    rw [List.length_take, List.length_drop]
    omega

/-- Witness for `c2_range_read`: a blob read of bytes 1..2 of a 4-byte
object, a chunk read of bytes 1..2 crossing the chunk-0/chunk-1 boundary,
and a pending read of bytes 1..2 of a staged file. -/
theorem c2_range_read_witness :
    serveTF [{ name := "A",
               uploads := [⟨"T", ⟨"T", "f", "f", 4, "m", 7, "db", none⟩, some [1, 2, 3, 4], 1⟩] }]
        [] "T" (some (some 1, some 2)) = .partialContent 1 2 4 [2, 3] ∧
    serveTF [{ name := "A", chunkRows := [("T", 0, [1, 2]), ("T", 1, [3, 4])] }]
        [] "T" (some (some 1, some 2)) = .partialContent 1 2 4 [2, 3] ∧
    serveTF [] [{ base := "pending-T-0.bin",
                  meta := some ("T", ⟨"T", "f", "f", 4, "m", 7, "db", none⟩),
                  bin := some [1, 2, 3, 4] }]
        "T" (some (some 1, some 2)) = .partialContent 1 2 4 [2, 3] := by
  refine ⟨?_, ?_, ?_⟩
  · exact ((c2_range_read "T" (by decide)
      [{ name := "A",
         uploads := [⟨"T", ⟨"T", "f", "f", 4, "m", 7, "db", none⟩, some [1, 2, 3, 4], 1⟩] }]
      [] 1 2 (by decide)).1 [1, 2, 3, 4] (by decide) (by decide)).1
  · exact ((c2_range_read "T" (by decide)
      [{ name := "A", chunkRows := [("T", 0, [1, 2]), ("T", 1, [3, 4])] }]
      [] 1 2 (by decide)).2.1 (0, [1, 2]) [(1, [3, 4])] (by decide) (by decide)
      (by decide)).1
  · exact ((c2_range_read "T" (by decide) []
      [{ base := "pending-T-0.bin",
         meta := some ("T", ⟨"T", "f", "f", 4, "m", 7, "db", none⟩),
         bin := some [1, 2, 3, 4] }]
      1 2 (by decide)).2.2 [1, 2, 3, 4] (by decide) (by decide) (by decide)
      (by decide)).1

/-! ### C5 — unsatisfiable ranges -/

/-- C5 counterexample: the open-ended range `bytes=1-` against a 1-byte
stored blob has start `1 ≥ total = 1`, yet the handler does not answer
`416`: `parseRange` computes `e = size - 1 = 0 < s` and returns `null`,
so the request is treated as unranged and the **full** body is sent with
`200`. -/
theorem c5_open_range_counterexample :
    serveTF [{ name := "A",
               uploads := [⟨"T", ⟨"T", "f", "f", 1, "m", 7, "db", none⟩, some [5], 1⟩] }]
        [] "T" (some (some 1, none)) = .full [5] 1 ∧
    serveTF [{ name := "A",
               uploads := [⟨"T", ⟨"T", "f", "f", 1, "m", 7, "db", none⟩, some [5], 1⟩] }]
        [] "T" (some (some 1, none)) ≠ .notSatisfiable 1 := by
  refine ⟨by decide, by decide⟩

/-- C5 (amended): for every *explicit two-endpoint* range `s-e` with
`s ≤ e`, if `s` or `e` reaches the object's total size the read answers
`416` carrying the true total (`Content-Range: bytes */total`) and sends
no content, in all three tiers; an open-ended range whose start reaches
the total is instead treated as no range at all and served in full. -/
theorem c5_unsatisfiable_416 (token : String) (htok : token ≠ "")
    (pools : List Pool) (dir : List PendingFile) (s e : Nat) (hse : s ≤ e) :
    (∀ buf, fetchFileDataFromPools pools token = some buf →
      buf.length ≤ s ∨ buf.length ≤ e →
      serveTF pools dir token (some (some s, some e)) = .notSatisfiable buf.length) ∧
    (∀ r rs, fetchFileDataFromPools pools token = none →
      fetchAllChunksAcrossPools pools token = r :: rs →
      (((r :: rs).map (fun x => x.2)).flatten).length ≤ s ∨
        (((r :: rs).map (fun x => x.2)).flatten).length ≤ e →
      serveTF pools dir token (some (some s, some e)) =
        .notSatisfiable ((((r :: rs).map (fun x => x.2)).flatten).length)) ∧
    (∀ pbuf, fetchFileDataFromPools pools token = none →
      fetchAllChunksAcrossPools pools token = [] →
      findPending dir token = some pbuf → pbuf.length ≤ s ∨ pbuf.length ≤ e →
      serveTF pools dir token (some (some s, some e)) = .notSatisfiable pbuf.length) := by
  have hbeq : (token == "") = false := beq_eq_false_iff_ne.mpr htok
  refine ⟨?_, ?_, ?_⟩
  · intro buf hb hun
    rw [serveTF_blob_eval pools dir token _ buf hbeq hb,
      parseRange_explicit s e buf.length hse]
    dsimp only []
    rw [if_pos hun]
  · intro r rs hb hc hun
    have hlen : (((r :: rs).map (fun x => x.2)).map List.length).sum =
        (((r :: rs).map (fun x => x.2)).flatten).length :=
      (List.length_flatten _).symm
    rw [serveTF_chunks_eval pools dir token _ r rs hbeq hb hc]
    dsimp only []
    rw [parseRange_explicit s e _ hse]
    dsimp only []
    rw [hlen, if_pos hun]
  · intro pbuf hb hc hp hun
    rw [serveTF_pending_eval pools dir token _ pbuf hbeq hb hc hp,
      parseRange_explicit s e pbuf.length hse]
    dsimp only []
    rw [if_pos hun]

/-- Witness for `c5_unsatisfiable_416`: ranges reaching past the end of
a 1-byte blob, a 2-byte chunk sequence, and a 1-byte pending file all
draw `416` with the true total. -/
theorem c5_unsatisfiable_416_witness :
    serveTF [{ name := "A",
               uploads := [⟨"T", ⟨"T", "f", "f", 1, "m", 7, "db", none⟩, some [5], 1⟩] }]
        [] "T" (some (some 1, some 2)) = .notSatisfiable 1 ∧
    serveTF [{ name := "A", chunkRows := [("T", 0, [1, 2])] }]
        [] "T" (some (some 5, some 9)) = .notSatisfiable 2 ∧
    serveTF [] [{ base := "pending-T-0.bin",
                  meta := some ("T", ⟨"T", "f", "f", 1, "m", 7, "db", none⟩),
                  bin := some [9] }] "T" (some (some 1, some 1)) = .notSatisfiable 1 := by
  refine ⟨?_, ?_, ?_⟩
  · exact (c5_unsatisfiable_416 "T" (by decide)
      [{ name := "A",
         uploads := [⟨"T", ⟨"T", "f", "f", 1, "m", 7, "db", none⟩, some [5], 1⟩] }]
      [] 1 2 (by decide)).1 [5] (by decide) (by decide)
  · exact (c5_unsatisfiable_416 "T" (by decide)
      [{ name := "A", chunkRows := [("T", 0, [1, 2])] }]
      [] 5 9 (by decide)).2.1 (0, [1, 2]) [] (by decide) (by decide) (by decide)
  · exact (c5_unsatisfiable_416 "T" (by decide) []
      [{ base := "pending-T-0.bin",
         meta := some ("T", ⟨"T", "f", "f", 1, "m", 7, "db", none⟩),
         bin := some [9] }] 1 1 (by decide)).2.2 [9] (by decide) (by decide)
      (by decide) (by decide)

/-! ### C6 — 404 for unknown tokens, 410 for metadata without bytes -/

theorem fetchFileFromDB_skip (token : String) :
    ∀ (pre rest : List Pool), (∀ q ∈ pre, q.queryOk = true → rowFor q token = none) →
      fetchFileFromDB (pre ++ rest) token = fetchFileFromDB rest token := by
  intro pre rest h
  induction pre with
  | nil => rfl
  | cons q pre ih =>
    have hrest : ∀ x ∈ pre, x.queryOk = true → rowFor x token = none :=
      fun x hx => h x (List.mem_cons_of_mem q hx)
    by_cases hq : q.queryOk
    · rw [List.cons_append, fetchFileFromDB, if_pos hq, h q (List.mem_cons_self q pre) hq]
      exact ih hrest
    · rw [List.cons_append, fetchFileFromDB, if_neg hq]
      exact ih hrest

theorem serveDB_eval (pools : List Pool) (token : String) (h : pools ≠ []) :
    serveDB pools token =
      match fetchFileFromDB pools token with
      | none => .notFound
      | some (_, none) => .gone
      | some (_, some buf) => .full buf buf.length := by
  match pools with
  | [] => exact absurd rfl h
  | p :: rest => rfl

/-- C6: a token unknown in every tier reads `404` — both in the DB blob
variant (`src/server.js`: no pool has an `uploads` row) and in the
three-tier reader (`src/unnamed/part_001`: no blob, no chunk rows, no
pending pair) — while a token whose metadata row exists but whose
`file_data` is null reads the distinct `410 Gone` in the DB variant. -/
theorem c6_notFound_vs_gone (token : String) :
    (∀ (p0 : Pool) (rest : List Pool),
      (∀ q ∈ p0 :: rest, q.queryOk = true → rowFor q token = none) →
      serveDB (p0 :: rest) token = .notFound) ∧
    (∀ (pre post : List Pool) (p : Pool) (r : Row),
      (∀ q ∈ pre, q.queryOk = true → rowFor q token = none) →
      p.queryOk = true → rowFor p token = some r → r.fileData = none →
      serveDB (pre ++ p :: post) token = .gone) ∧
    (∀ (pools : List Pool) (dir : List PendingFile), token ≠ "" →
      fetchFileDataFromPools pools token = none →
      fetchAllChunksAcrossPools pools token = [] →
      findPending dir token = none →
      serveTF pools dir token none = .notFound) := by
  refine ⟨?_, ?_, ?_⟩
  · intro p0 rest h
    have hfetch : fetchFileFromDB (p0 :: rest) token = none := by
      have := fetchFileFromDB_skip token (p0 :: rest) [] h
      rwa [List.append_nil] at this
    rw [serveDB_eval _ token (by simp), hfetch]
  · intro pre post p r hpre hpq hrow hfd
    have hfetch : fetchFileFromDB (pre ++ p :: post) token = some (r.data, none) := by
      rw [fetchFileFromDB_skip token pre _ hpre, fetchFileFromDB, if_pos hpq, hrow]
      dsimp only []
      rw [hfd]
    rw [serveDB_eval _ token (by simp), hfetch]
  · intro pools dir htok hb hc hp
    exact serveTF_notFound_eval pools dir token none
      (beq_eq_false_iff_ne.mpr htok) hb hc hp

/-- Witness for `c6_notFound_vs_gone`: a pool with no row answers `404`;
a pool with a row whose `file_data` is null answers `410`; the three-tier
reader with nothing staged answers `404`. -/
theorem c6_notFound_vs_gone_witness :
    serveDB [{ name := "A" }] "T" = .notFound ∧
    serveDB [{ name := "A",
               uploads := [⟨"T", ⟨"T", "f", "f", 1, "m", 7, "db", none⟩, none, 1⟩] }] "T" =
      .gone ∧
    serveTF [{ name := "A" }] [] "T" none = .notFound := by
  refine ⟨?_, ?_, ?_⟩
  · exact (c6_notFound_vs_gone "T").1 { name := "A" } [] (by decide)
  · exact (c6_notFound_vs_gone "T").2.1 [] []
      { name := "A",
        uploads := [⟨"T", ⟨"T", "f", "f", 1, "m", 7, "db", none⟩, none, 1⟩] }
      ⟨"T", ⟨"T", "f", "f", 1, "m", 7, "db", none⟩, none, 1⟩
      (by intro q hq; cases hq) (by decide) (by decide) (by decide)
  · exact (c6_notFound_vs_gone "T").2.2 [{ name := "A" }] [] (by decide) (by decide)
      (by decide) (by decide)

/-! ### C4 — per-backend failure advances, exhaustion aggregates -/

theorem saveFileGo_first_ok (p : PoolW) (hp : poolFinalErr p = none) :
    ∀ (pre : List PoolW), (∀ q ∈ pre, poolFinalErr q ≠ none) →
      ∀ (post : List PoolW) (last : Option String),
        saveFileGo (pre ++ p :: post) last = .ok p.name := by
  intro pre
  induction pre with
  | nil =>
    intro _ post last
    rw [List.nil_append, saveFileGo]
    match he : p.firstErr with
    | none => rfl
    | some e =>
      rw [poolFinalErr, he] at hp
      dsimp only [] at hp
      dsimp only []
      match hs : isSchemaMsg e with
      | true =>
        rw [if_pos hs] at hp
        rw [if_pos rfl, hp]
      | false =>
        rw [if_neg (by rw [hs]; exact Bool.false_ne_true)] at hp
        cases hp
  | cons q pre ih =>
    intro h post last
    have hq : poolFinalErr q ≠ none := h q (List.mem_cons_self q pre)
    have hrest : ∀ x ∈ pre, poolFinalErr x ≠ none :=
      fun x hx => h x (List.mem_cons_of_mem q hx)
    rw [List.cons_append, saveFileGo]
    match he : q.firstErr with
    | none =>
      rw [poolFinalErr, he] at hq
      exact absurd rfl hq
    | some e =>
      rw [poolFinalErr, he] at hq
      dsimp only [] at hq
      dsimp only []
      match hs : isSchemaMsg e with
      | true =>
        rw [if_pos hs] at hq
        rw [if_pos rfl]
        match hre : q.retryErr with
        | none => rw [hre] at hq; exact absurd rfl hq
        | some e2 => exact ih hrest post (some e2)
      | false =>
        rw [if_neg Bool.false_ne_true]
        exact ih hrest post (some e)

theorem saveFileGo_all_fail :
    ∀ (pools : List PoolW) (pl : PoolW) (e : String), poolFinalErr pl = some e →
      (∀ q ∈ pools, poolFinalErr q ≠ none) →
      ∀ last, saveFileGo (pools ++ [pl]) last = .error e := by
  intro pools
  induction pools with
  | nil =>
    intro pl e he _ last
    rw [List.nil_append, saveFileGo]
    match hf : pl.firstErr with
    | none => rw [poolFinalErr, hf] at he; cases he
    | some e1 =>
      rw [poolFinalErr, hf] at he
      dsimp only [] at he
      dsimp only []
      match hs : isSchemaMsg e1 with
      | true =>
        rw [if_pos hs] at he
        rw [if_pos rfl, he]
        rfl
      | false =>
        rw [if_neg (by rw [hs]; exact Bool.false_ne_true)] at he
        rw [if_neg Bool.false_ne_true]
        cases he
        rfl
  | cons q pools ih =>
    intro pl e he h last
    have hq : poolFinalErr q ≠ none := h q (List.mem_cons_self q pools)
    have hrest : ∀ x ∈ pools, poolFinalErr x ≠ none :=
      fun x hx => h x (List.mem_cons_of_mem q hx)
    rw [List.cons_append, saveFileGo]
    match hf : q.firstErr with
    | none => rw [poolFinalErr, hf] at hq; exact absurd rfl hq
    | some e1 =>
      rw [poolFinalErr, hf] at hq
      dsimp only [] at hq
      dsimp only []
      match hs : isSchemaMsg e1 with
      | true =>
        rw [if_pos hs] at hq
        rw [if_pos rfl]
        match hre : q.retryErr with
        | none => rw [hre] at hq; exact absurd rfl hq
        | some e2 => exact ih pl e he hrest (some e2)
      | false =>
        rw [if_neg Bool.false_ne_true]
        exact ih pl e he hrest (some e1)

theorem saveFileToDB_eval (pools : List PoolW) (h : pools ≠ []) :
    saveFileToDB pools = saveFileGo pools none := by
  match pools with
  | [] => exact absurd rfl h
  | p :: rest => rfl

theorem saveChunksToDBAcrossPools_eval (csize : Nat) (token : String) (buf : Buffer)
    (pools : List Pool) (h : pools ≠ []) :
    saveChunksToDBAcrossPools csize token buf pools =
      saveChunksGo csize token buf pools none := by
  match pools with
  | [] => exact absurd rfl h
  | p :: rest => rfl

/-- C4: in both multi-backend writers — the blob upsert `saveFileToDB`
(with its migrate-and-retry-once cycle) and the chunk writer
`saveChunksToDBAcrossPools` — the failure of any backend never aborts the
operation: the first backend whose attempt succeeds wins regardless of
any failing prefix, and only when *every* backend has finally failed does
the caller see an error, which is the last backend's error. -/
theorem c4_failover (csize : Nat) (token : String) (buf : Buffer) :
    (∀ (pre post : List PoolW) (p : PoolW), (∀ q ∈ pre, poolFinalErr q ≠ none) →
      poolFinalErr p = none →
      saveFileToDB (pre ++ p :: post) = .ok p.name) ∧
    (∀ (pools : List PoolW) (pl : PoolW) (e : String),
      (∀ q ∈ pools, poolFinalErr q ≠ none) → poolFinalErr pl = some e →
      saveFileToDB (pools ++ [pl]) = .error e) ∧
    (∀ (pre post : List Pool) (p : Pool), (∀ q ∈ pre, poolChunksErr q ≠ none) →
      poolChunksErr p = none →
      saveChunksToDBAcrossPools csize token buf (pre ++ p :: post) =
        .ok (pre ++ storeChunks csize token buf p :: post, p.name)) ∧
    (∀ (pools : List Pool) (pl : Pool) (e : String),
      (∀ q ∈ pools, poolChunksErr q ≠ none) → poolChunksErr pl = some e →
      saveChunksToDBAcrossPools csize token buf (pools ++ [pl]) = .error e) := by
  refine ⟨?_, ?_, ?_, ?_⟩
  · intro pre post p hpre hp
    rw [saveFileToDB_eval _ (by simp), saveFileGo_first_ok p hp pre hpre post none]
  · intro pools pl e hpools he
    rw [saveFileToDB_eval _ (by simp), saveFileGo_all_fail pools pl e he hpools none]
  · intro pre post p hpre hp
    rw [saveChunksToDBAcrossPools_eval csize token buf _ (by simp),
      saveChunksGo_first_ok csize token buf p hp pre post hpre none]
  · intro pools pl e hpools he
    rw [saveChunksToDBAcrossPools_eval csize token buf _ (by simp),
      saveChunksGo_all_fail csize token buf pools pl e he hpools none]

/-- Witness for `c4_failover`: a connection-refused first backend is
skipped and the second accepts (both writers); when both backends fail,
the surfaced error is the last backend's. -/
theorem c4_failover_witness :
    saveFileToDB [{ name := "DATABASE_URL", firstErr := some "connection terminated" },
                  { name := "DATABASE_URL2" }] = .ok "DATABASE_URL2" ∧
    saveFileToDB [{ name := "DATABASE_URL",
                    firstErr := some "relation uploads does not exist",
                    retryErr := some "retry failed" },
                  { name := "DATABASE_URL2", firstErr := some "disk full" }] =
      .error "disk full" ∧
    saveChunksToDBAcrossPools 2 "T" [1, 2, 3]
        [{ name := "DATABASE_URL", connectErr := some "connection terminated" },
         { name := "DATABASE_URL2" }] =
      .ok ([{ name := "DATABASE_URL", connectErr := some "connection terminated" },
            { name := "DATABASE_URL2", chunkRows := [("T", 0, [1, 2]), ("T", 1, [3])] }],
           "DATABASE_URL2") ∧
    saveChunksToDBAcrossPools 2 "T" [1, 2, 3]
        [{ name := "DATABASE_URL", connectErr := some "connection terminated" },
         { name := "DATABASE_URL2", txErr := some "value too large" }] =
      .error "value too large" := by
  refine ⟨?_, ?_, ?_, ?_⟩
  · exact (c4_failover 2 "T" [1, 2, 3]).1
      [{ name := "DATABASE_URL", firstErr := some "connection terminated" }] []
      { name := "DATABASE_URL2" } (by decide) (by decide)
  · exact (c4_failover 2 "T" [1, 2, 3]).2.1
      [{ name := "DATABASE_URL", firstErr := some "relation uploads does not exist",
         retryErr := some "retry failed" }]
      { name := "DATABASE_URL2", firstErr := some "disk full" } "disk full"
      (by decide) (by decide)
  · exact (c4_failover 2 "T" [1, 2, 3]).2.2.1
      [{ name := "DATABASE_URL", connectErr := some "connection terminated" }] []
      { name := "DATABASE_URL2" } (by decide) (by decide)
  · exact (c4_failover 2 "T" [1, 2, 3]).2.2.2
      [{ name := "DATABASE_URL", connectErr := some "connection terminated" }]
      { name := "DATABASE_URL2", txErr := some "value too large" } "value too large"
      (by decide) (by decide)

/-! ### C7 — token allocation against the in-memory cache -/

/-- C7 counterexample: when every 8-character draw collides (all 50
retries exhausted), `genUniqueToken` returns the single 12-character
draw *without checking the cache*, so the returned token can itself be a
key of the cache: with cache `{AAAAAAAA, BBBBBBBBBBBB}`, the allocator
returns `BBBBBBBBBBBB`, which is already cached. -/
theorem c7_fallback_collision_counterexample :
    genUniqueToken (fun t => t == "AAAAAAAA" || t == "BBBBBBBBBBBB")
        (fun _ => "AAAAAAAA") "BBBBBBBBBBBB" = "BBBBBBBBBBBB" ∧
    (fun t => t == "AAAAAAAA" || t == "BBBBBBBBBBBB") "BBBBBBBBBBBB" = true := by
  refine ⟨by decide, by decide⟩

theorem genUniqueLoop_all_cached (inCache : String → Bool) (gen8 : Nat → String) :
    ∀ (r i : Nat) (t : String), inCache t = true → (∀ j, inCache (gen8 j) = true) →
      inCache (genUniqueLoop inCache gen8 i r t) = true := by
  intro r
  induction r with
  | zero => intro i t ht _; exact ht
  | succ r ih =>
    intro i t ht hall
    rw [genUniqueLoop, if_pos ht]
    exact ih (i + 1) (gen8 i) (hall i) hall

/-- C7 (amended): every token the allocator returns is either absent
from the in-memory cache or is the deterministic 12-character fallback
(returned, unchecked, instead of failing the request); in particular,
when every 8-character draw collides the allocator still deterministically
returns the 12-character token.  (The `src/unnamed/part_001` upload path
assigns `genToken(10)` with no cache check at all.) -/
theorem c7_token_allocation (inCache : String → Bool) (gen8 : Nat → String)
    (gen12 : String) :
    (inCache (genUniqueToken inCache gen8 gen12) = false ∨
      genUniqueToken inCache gen8 gen12 = gen12) ∧
    ((∀ j, inCache (gen8 j) = true) → genUniqueToken inCache gen8 gen12 = gen12) := by
  constructor
  · unfold genUniqueToken
    by_cases h : inCache (genUniqueLoop inCache gen8 1 50 (gen8 0)) = true
    · right
      rw [if_pos h]
    · left
      rw [if_neg h]
      exact Bool.not_eq_true _ |>.mp h
  · intro hall
    unfold genUniqueToken
    rw [if_pos (genUniqueLoop_all_cached inCache gen8 50 1 (gen8 0) (hall 0) hall)]

/-- Witness for `c7_token_allocation`: a fully saturated cache forces
the 12-character fallback. -/
theorem c7_token_allocation_witness :
    ((fun (_ : String) => true) (genUniqueToken (fun _ => true) (fun _ => "A") "B") = false ∨
      genUniqueToken (fun _ => true) (fun _ => "A") "B" = "B") ∧
    genUniqueToken (fun _ => true) (fun _ => "A") "B" = "B" :=
  ⟨(c7_token_allocation (fun _ => true) (fun _ => "A") "B").1,
   (c7_token_allocation (fun _ => true) (fun _ => "A") "B").2 (fun _ => rfl)⟩

/-! ### C8 — upsert idempotence -/

theorem upsert_keys_map (t : String) (upd : Row → Row)
    (hupd : ∀ r, r.token = t → (upd r).token = t) :
    ∀ (tbl : List Row),
      (tbl.map (fun r => if r.token == t then upd r else r)).map (fun r => r.token) =
        tbl.map (fun r => r.token) := by
  intro tbl
  induction tbl with
  | nil => rfl
  | cons r tbl ih =>
    rw [List.map_cons, List.map_cons, List.map_cons, ih]
    by_cases h : r.token = t
    · rw [if_pos (beq_iff_eq.mpr h), hupd r h, h]
    · rw [if_neg (by simp [h])]

theorem beqT {a b : String} (h : a = b) : (a == b) = true := beq_iff_eq.mpr h

theorem beqF {a b : String} (h : a ≠ b) : (a == b) = false := beq_eq_false_iff_ne.mpr h

theorem upsert_filter_self_map (t : String) (upd : Row → Row)
    (hupd : ∀ r, r.token = t → (upd r).token = t) :
    ∀ (tbl : List Row),
      (tbl.map (fun r => if r.token == t then upd r else r)).filter
          (fun r => r.token == t) =
        (tbl.filter (fun r => r.token == t)).map upd := by
  intro tbl
  induction tbl with
  | nil => rfl
  | cons r tbl ih =>
    by_cases h : r.token = t
    · simp only [List.map_cons, List.filter_cons, beqT h, beqT (hupd r h),
        eq_self_iff_true, if_true, ih]
    · simp only [List.map_cons, List.filter_cons, beqF h, Bool.false_eq_true,
        if_false, ih]

theorem upsert_filter_other_map (t t' : String) (ht : t' ≠ t) (upd : Row → Row)
    (hupd : ∀ r, r.token = t → (upd r).token = t) :
    ∀ (tbl : List Row),
      (tbl.map (fun r => if r.token == t then upd r else r)).filter
          (fun r => r.token == t') =
        tbl.filter (fun r => r.token == t') := by
  intro tbl
  induction tbl with
  | nil => rfl
  | cons r tbl ih =>
    have hne : t ≠ t' := fun he => ht he.symm
    by_cases h : r.token = t
    · have hub : ((upd r).token == t') = false := beqF (by rw [hupd r h]; exact hne)
      have hb' : (r.token == t') = false := beqF (by rw [h]; exact hne)
      simp only [List.map_cons, List.filter_cons, beqT h, eq_self_iff_true, if_true,
        hub, hb', Bool.false_eq_true, if_false, ih]
    · by_cases h' : r.token = t'
      · simp only [List.map_cons, List.filter_cons, beqF h, Bool.false_eq_true,
          if_false, beqT h', eq_self_iff_true, if_true, ih]
      · simp only [List.map_cons, List.filter_cons, beqF h, beqF h',
          Bool.false_eq_true, if_false, ih]

theorem filter_self_cases (t : String) :
    ∀ (tbl : List Row), (tbl.map (fun r => r.token)).Nodup →
      tbl.filter (fun r => r.token == t) = [] ∨
        ∃ r0, r0.token = t ∧ tbl.filter (fun r => r.token == t) = [r0] := by
  intro tbl
  induction tbl with
  | nil => intro _; left; rfl
  | cons r tbl ih =>
    intro hnd
    rw [List.map_cons, List.nodup_cons] at hnd
    by_cases h : r.token = t
    · right
      refine ⟨r, h, ?_⟩
      have hrest : tbl.filter (fun r => r.token == t) = [] := by
        rw [List.filter_eq_nil_iff]
        intro x hx hb
        have hmem : x.token ∈ tbl.map (fun r => r.token) := List.mem_map_of_mem _ hx
        rw [beq_iff_eq.mp hb, ← h] at hmem
        exact hnd.1 hmem
      simp only [List.filter_cons, beqT h, eq_self_iff_true, if_true, hrest]
    · simp only [List.filter_cons, beqF h, Bool.false_eq_true, if_false]
      exact ih hnd.2

theorem upsert_any_true (tbl : List Row) (t : String) (mk : Row) (upd : Row → Row)
    (hmk : mk.token = t) (hupd : ∀ r, r.token = t → (upd r).token = t) :
    (upsertRowWith tbl t mk upd).any (fun r => r.token == t) = true := by
  rw [upsertRowWith]
  match ha : tbl.any (fun r => r.token == t) with
  | false =>
    rw [if_neg Bool.false_ne_true]
    rw [List.any_append]
    have : ((mk.token == t) || false) = true := by simp [hmk]
    simp [hmk]
  | true =>
    rw [if_pos rfl]
    rw [List.any_eq_true] at ha
    obtain ⟨r, hr, hb⟩ := ha
    rw [List.any_eq_true]
    refine ⟨(if r.token == t then upd r else r), List.mem_map_of_mem _ hr, ?_⟩
    rw [if_pos hb]
    exact beq_iff_eq.mpr (hupd r (beq_iff_eq.mp hb))

/-- After any upsert the table still has pairwise-distinct tokens. -/
theorem upsert_nodup (tbl : List Row) (t : String) (mk : Row) (upd : Row → Row)
    (hmk : mk.token = t) (hupd : ∀ r, r.token = t → (upd r).token = t)
    (hnd : (tbl.map (fun r => r.token)).Nodup) :
    ((upsertRowWith tbl t mk upd).map (fun r => r.token)).Nodup := by
  rw [upsertRowWith]
  match ha : tbl.any (fun r => r.token == t) with
  | true =>
    rw [if_pos rfl, upsert_keys_map t upd hupd]
    exact hnd
  | false =>
    rw [if_neg Bool.false_ne_true, List.map_append]
    rw [List.nodup_append]
    refine ⟨hnd, by simp, ?_⟩
    intro x hx
    rw [List.any_eq_false] at ha
    simp only [List.map_cons, List.map_nil, List.mem_singleton]
    intro hxe
    obtain ⟨r, hr, hrx⟩ := List.mem_map.mp hx
    have := ha r hr
    rw [hxe, hmk] at hrx
    rw [← hrx] at this
    simp at this

/-- The row the double upsert leaves for `t`, and the untouched rest. -/
theorem upsert_double (tbl : List Row) (t : String) (mk1 mk2 : Row) (upd1 upd2 : Row → Row)
    (hmk1 : mk1.token = t) (hmk2 : mk2.token = t)
    (hupd1 : ∀ r, r.token = t → (upd1 r).token = t)
    (hupd2 : ∀ r, r.token = t → (upd2 r).token = t)
    (hnd : (tbl.map (fun r => r.token)).Nodup) :
    (∃ r0, (upsertRowWith (upsertRowWith tbl t mk1 upd1) t mk2 upd2).filter
        (fun r => r.token == t) = [upd2 r0] ∧ (r0 = mk1 ∨ ∃ r1, r0 = upd1 r1)) ∧
    ((upsertRowWith (upsertRowWith tbl t mk1 upd1) t mk2 upd2).map
        (fun r => r.token)).Nodup ∧
    (∀ t', t' ≠ t →
      (upsertRowWith (upsertRowWith tbl t mk1 upd1) t mk2 upd2).filter
          (fun r => r.token == t') = tbl.filter (fun r => r.token == t')) := by
  have hnd1 : ((upsertRowWith tbl t mk1 upd1).map (fun r => r.token)).Nodup :=
    upsert_nodup tbl t mk1 upd1 hmk1 hupd1 hnd
  have hany1 : (upsertRowWith tbl t mk1 upd1).any (fun r => r.token == t) = true :=
    upsert_any_true tbl t mk1 upd1 hmk1 hupd1
  have hu2 : upsertRowWith (upsertRowWith tbl t mk1 upd1) t mk2 upd2 =
      (upsertRowWith tbl t mk1 upd1).map (fun r => if r.token == t then upd2 r else r) := by
    rw [upsertRowWith, if_pos hany1]
  refine ⟨?_, ?_, ?_⟩
  · -- the filtered singleton
    rw [hu2, upsert_filter_self_map t upd2 hupd2]
    have hfilter1 : ∃ r0, (upsertRowWith tbl t mk1 upd1).filter (fun r => r.token == t) =
        [r0] ∧ (r0 = mk1 ∨ ∃ r1, r0 = upd1 r1) := by
      rw [upsertRowWith]
      match ha : tbl.any (fun r => r.token == t) with
      | false =>
        rw [if_neg Bool.false_ne_true, List.filter_append]
        have h1 : tbl.filter (fun r => r.token == t) = [] := by
          rw [List.filter_eq_nil_iff]
          intro x hx hb
          have := (List.any_eq_false.mp ha) x hx
          exact this hb
        rw [h1, List.nil_append]
        refine ⟨mk1, ?_, Or.inl rfl⟩
        simp only [List.filter_cons, beqT hmk1, eq_self_iff_true, if_true,
          List.filter_nil]
      | true =>
        rw [if_pos rfl, upsert_filter_self_map t upd1 hupd1]
        rcases filter_self_cases t tbl hnd with hnil | ⟨r0, _, hone⟩
        · rw [List.any_eq_true] at ha
          obtain ⟨r, hr, hb⟩ := ha
          rw [List.filter_eq_nil_iff] at hnil
          exact absurd hb (by exact fun hb' => hnil r hr hb')
        · rw [hone]
          exact ⟨upd1 r0, rfl, Or.inr ⟨r0, rfl⟩⟩
    obtain ⟨r0, hr0, hsrc⟩ := hfilter1
    exact ⟨r0, by rw [hr0]; rfl, hsrc⟩
  · rw [hu2]
    have := upsert_nodup (upsertRowWith tbl t mk1 upd1) t mk2 upd2 hmk2 hupd2 hnd1
    rw [upsertRowWith, if_pos hany1] at this
    exact this
  · intro t' ht'
    rw [hu2, upsert_filter_other_map t t' ht' upd2 hupd2]
    rw [upsertRowWith]
    match ha : tbl.any (fun r => r.token == t) with
    | false =>
      rw [if_neg Bool.false_ne_true, List.filter_append]
      have hmkne : (mk1.token == t') = false :=
        beqF (by rw [hmk1]; exact fun he => ht' he.symm)
      simp only [List.filter_cons, hmkne, Bool.false_eq_true, if_false,
        List.filter_nil, List.append_nil]
    | true =>
      rw [if_pos rfl, upsert_filter_other_map t t' ht' upd1 hupd1]

/-- C8: the metadata upsert (`ON CONFLICT (token) DO UPDATE`) is
idempotent in both cited forms — the metadata-only upsert of
`saveMappingMetadataToDBAcrossPools` and the blob upsert of
`saveFileToDB`: after upserting the same token twice into a table whose
tokens are distinct, exactly one row for that token remains, carrying the
later write's data and timestamp; tokens stay pairwise distinct and the
rows of every other token are untouched. -/
theorem c8_upsert_idempotent (tbl : List Row) (t : String) (e1 e2 : Entry)
    (b1 b2 : Buffer) (n1 n2 : Nat)
    (hnd : (tbl.map (fun r => r.token)).Nodup) :
    (∃ fd, (upsertMeta (upsertMeta tbl t e1 n1) t e2 n2).filter
        (fun r => r.token == t) = [⟨t, e2, fd, n2⟩]) ∧
    ((upsertMeta (upsertMeta tbl t e1 n1) t e2 n2).map (fun r => r.token)).Nodup ∧
    (∀ t', t' ≠ t → (upsertMeta (upsertMeta tbl t e1 n1) t e2 n2).filter
        (fun r => r.token == t') = tbl.filter (fun r => r.token == t')) ∧
    ((upsertFile (upsertFile tbl t e1 b1 n1) t e2 b2 n2).filter
        (fun r => r.token == t) = [⟨t, e2, some b2, n2⟩]) ∧
    ((upsertFile (upsertFile tbl t e1 b1 n1) t e2 b2 n2).map (fun r => r.token)).Nodup ∧
    (∀ t', t' ≠ t → (upsertFile (upsertFile tbl t e1 b1 n1) t e2 b2 n2).filter
        (fun r => r.token == t') = tbl.filter (fun r => r.token == t')) := by
  have hmeta := upsert_double tbl t ⟨t, e1, none, n1⟩ ⟨t, e2, none, n2⟩
    (fun r => ⟨t, e1, r.fileData, n1⟩) (fun r => ⟨t, e2, r.fileData, n2⟩)
    rfl rfl (fun _ _ => rfl) (fun _ _ => rfl) hnd
  have hfile := upsert_double tbl t ⟨t, e1, some b1, n1⟩ ⟨t, e2, some b2, n2⟩
    (fun _ => ⟨t, e1, some b1, n1⟩) (fun _ => ⟨t, e2, some b2, n2⟩)
    rfl rfl (fun _ _ => rfl) (fun _ _ => rfl) hnd
  refine ⟨?_, hmeta.2.1, hmeta.2.2, ?_, hfile.2.1, hfile.2.2⟩
  · obtain ⟨r0, hr0, _⟩ := hmeta.1
    exact ⟨r0.fileData, hr0⟩
  · obtain ⟨r0, hr0, _⟩ := hfile.1
    exact hr0

/-- Witness for `c8_upsert_idempotent`: double-upserting token `T` into
a one-row table for token `U`. -/
theorem c8_upsert_idempotent_witness :
    (∃ fd, (upsertMeta (upsertMeta [⟨"U", ⟨"U", "u", "u", 1, "m", 1, "db", none⟩, none, 1⟩]
        "T" ⟨"T", "a", "a", 1, "m", 2, "db", none⟩ 5) "T"
        ⟨"T", "b", "b", 2, "m", 3, "db", none⟩ 6).filter (fun r => r.token == "T") =
      [⟨"T", ⟨"T", "b", "b", 2, "m", 3, "db", none⟩, fd, 6⟩]) ∧
    ((upsertMeta (upsertMeta [⟨"U", ⟨"U", "u", "u", 1, "m", 1, "db", none⟩, none, 1⟩]
        "T" ⟨"T", "a", "a", 1, "m", 2, "db", none⟩ 5) "T"
        ⟨"T", "b", "b", 2, "m", 3, "db", none⟩ 6).map (fun r => r.token)).Nodup ∧
    (∀ t', t' ≠ "T" → (upsertMeta (upsertMeta
        [⟨"U", ⟨"U", "u", "u", 1, "m", 1, "db", none⟩, none, 1⟩]
        "T" ⟨"T", "a", "a", 1, "m", 2, "db", none⟩ 5) "T"
        ⟨"T", "b", "b", 2, "m", 3, "db", none⟩ 6).filter (fun r => r.token == t') =
      [⟨"U", ⟨"U", "u", "u", 1, "m", 1, "db", none⟩, none, 1⟩].filter
        (fun r => r.token == t')) ∧
    ((upsertFile (upsertFile [⟨"U", ⟨"U", "u", "u", 1, "m", 1, "db", none⟩, none, 1⟩]
        "T" ⟨"T", "a", "a", 1, "m", 2, "db", none⟩ [1] 5) "T"
        ⟨"T", "b", "b", 2, "m", 3, "db", none⟩ [2] 6).filter (fun r => r.token == "T") =
      [⟨"T", ⟨"T", "b", "b", 2, "m", 3, "db", none⟩, some [2], 6⟩]) ∧
    ((upsertFile (upsertFile [⟨"U", ⟨"U", "u", "u", 1, "m", 1, "db", none⟩, none, 1⟩]
        "T" ⟨"T", "a", "a", 1, "m", 2, "db", none⟩ [1] 5) "T"
        ⟨"T", "b", "b", 2, "m", 3, "db", none⟩ [2] 6).map (fun r => r.token)).Nodup ∧
    (∀ t', t' ≠ "T" → (upsertFile (upsertFile
        [⟨"U", ⟨"U", "u", "u", 1, "m", 1, "db", none⟩, none, 1⟩]
        "T" ⟨"T", "a", "a", 1, "m", 2, "db", none⟩ [1] 5) "T"
        ⟨"T", "b", "b", 2, "m", 3, "db", none⟩ [2] 6).filter (fun r => r.token == t') =
      [⟨"U", ⟨"U", "u", "u", 1, "m", 1, "db", none⟩, none, 1⟩].filter
        (fun r => r.token == t')) :=
  c8_upsert_idempotent [⟨"U", ⟨"U", "u", "u", 1, "m", 1, "db", none⟩, none, 1⟩] "T"
    ⟨"T", "a", "a", 1, "m", 2, "db", none⟩ ⟨"T", "b", "b", 2, "m", 3, "db", none⟩
    [1] [2] 5 6 (by decide)

/-! ### C9 — startup merge -/

/-- C9: the cross-pool merge keeps the record with the latest
`created_at` (in either scan order), and `src/server.js` then lets the
backend copy override the local-disk copy
(`Object.assign({}, mappings, dbm)`); but `src/unnamed/part_001` line 378
computes `Object.assign({}, dbm, mappings)`, so the *disk* copy wins
there — contradicting both the claim and the code's own comment on line
377 ("DB is authoritative if present"). -/
theorem c9_startup_merge_bug :
    loadDbm [⟨"T", ⟨"T", "old", "old", 1, "m", 5, "db", none⟩, 5⟩,
             ⟨"T", ⟨"T", "new", "new", 2, "m", 9, "db", none⟩, 9⟩] "T" =
      some ⟨"T", "new", "new", 2, "m", 9, "db", none⟩ ∧
    loadDbm [⟨"T", ⟨"T", "new", "new", 2, "m", 9, "db", none⟩, 9⟩,
             ⟨"T", ⟨"T", "old", "old", 1, "m", 5, "db", none⟩, 5⟩] "T" =
      some ⟨"T", "new", "new", 2, "m", 9, "db", none⟩ ∧
    startupMergeServerJs (fun t => if t == "T" then some ⟨"T", "disk", "disk", 3, "m", 1, "db", none⟩ else none)
        (loadDbm [⟨"T", ⟨"T", "old", "old", 1, "m", 5, "db", none⟩, 5⟩,
                  ⟨"T", ⟨"T", "new", "new", 2, "m", 9, "db", none⟩, 9⟩]) "T" =
      some ⟨"T", "new", "new", 2, "m", 9, "db", none⟩ ∧
    startupMergePart001 (fun t => if t == "T" then some ⟨"T", "disk", "disk", 3, "m", 1, "db", none⟩ else none)
        (loadDbm [⟨"T", ⟨"T", "old", "old", 1, "m", 5, "db", none⟩, 5⟩,
                  ⟨"T", ⟨"T", "new", "new", 2, "m", 9, "db", none⟩, 9⟩]) "T" =
      some ⟨"T", "disk", "disk", 3, "m", 1, "db", none⟩ ∧
    (⟨"T", "disk", "disk", 3, "m", 1, "db", none⟩ : Entry) ≠
      ⟨"T", "new", "new", 2, "m", 9, "db", none⟩ := by
  refine ⟨by decide, by decide, by decide, by decide, by decide⟩

/-! ### C10 — reconciliation-pass overlap -/

/-- Each event-loop step preserves the number of live chains. -/
theorem rl_step_count (a b : RLState) (h : RLStep a b) :
    b.running.length + b.queued.length = a.running.length + a.queued.length := by
  cases h <;> simp <;> omega

/-- Had the loop been started only once, passes could never overlap:
from `rlInitOne` at most one pass is ever in progress. -/
theorem rl_single_chain_serialized (s : RLState) (h : RLReachable rlInitOne s) :
    s.running.length ≤ 1 := by
  have hc : s.running.length + s.queued.length = 1 := by
    induction h with
    | refl => rfl
    | tail _ hstep ih => rw [rl_step_count _ _ hstep]; exact ih
  omega

/-- C10: because `pendingRetryLoop()` is invoked twice at module scope
(startup IIFE and top level), two self-rescheduling chains exist, and the
event loop can reach a state in which **both** chains' passes are in
progress at once — two reconciliation passes running concurrently. -/
theorem c10_two_chains_overlap :
    RLReachable rlInitTwo ⟨[0, 1], []⟩ ∧
    (RLState.mk [0, 1] []).running.length = 2 :=
  ⟨Relation.ReflTransGen.trans
      (Relation.ReflTransGen.single (RLStep.passBegin 0 [] [] [1]))
      (Relation.ReflTransGen.single (RLStep.passBegin 1 [0] [] [])),
    rfl⟩

/-! ### C3 — total write failure stages to disk; one pass reconciles -/

theorem saveChunksGo_error_of_all_fail (csize : Nat) (token : String) (buf : Buffer) :
    ∀ (pools : List Pool), (∀ q ∈ pools, poolChunksErr q ≠ none) →
      ∀ last, ∃ e, saveChunksGo csize token buf pools last = .error e := by
  intro pools
  induction pools with
  | nil =>
    intro _ last
    match last with
    | none => exact ⟨"All DB pools failed to save chunks", rfl⟩
    | some e => exact ⟨e, rfl⟩
  | cons q pools ih =>
    intro h last
    match hq : poolChunksErr q with
    | none => exact absurd hq (h q (List.mem_cons_self q pools))
    | some e =>
      obtain ⟨e2, he2⟩ := ih (fun x hx => h x (List.mem_cons_of_mem q hx)) (some e)
      refine ⟨e2, ?_⟩
      rw [saveChunksGo, hq]
      dsimp only []
      rw [he2]

theorem saveChunks_error_of_all_fail (csize : Nat) (token : String) (buf : Buffer)
    (pools : List Pool) (h : ∀ q ∈ pools, poolChunksErr q ≠ none) :
    ∃ e, saveChunksToDBAcrossPools csize token buf pools = .error e := by
  match pools with
  | [] => exact ⟨"No DB pools available", rfl⟩
  | p :: rest =>
    exact saveChunksGo_error_of_all_fail csize token buf (p :: rest) h none

theorem saveMetaGo_first_ok (token : String) (e : Entry) (now : Nat) (p : Pool)
    (hp : p.metaErr = none) :
    ∀ (pre : List Pool), (∀ q ∈ pre, q.metaErr ≠ none) →
      ∀ (post : List Pool) (last : Option String),
        saveMetaGo token e now (pre ++ p :: post) last =
          .ok (pre ++ { p with uploads := upsertMeta p.uploads token e now } :: post,
               p.name) := by
  intro pre
  induction pre with
  | nil =>
    intro _ post last
    rw [List.nil_append, saveMetaGo, hp]
    rfl
  | cons q pre ih =>
    intro h post last
    match hq : q.metaErr with
    | none => exact absurd hq (h q (List.mem_cons_self q pre))
    | some er =>
      rw [List.cons_append, saveMetaGo, hq]
      dsimp only []
      rw [ih (fun x hx => h x (List.mem_cons_of_mem q hx)) post (some er)]
      rfl

theorem saveMeta_eval (token : String) (e : Entry) (now : Nat) (pools : List Pool)
    (h : pools ≠ []) :
    saveMappingMetadataToDBAcrossPools token e now pools =
      match saveMetaGo token e now pools none with
      | .ok (ps, n) => .ok (ps, some n)
      | .error er => .error er := by
  match pools with
  | [] => exact absurd rfl h
  | p :: rest => rfl

/-- A reconciliation attempt on a fully staged pair, while the pools
contain a first backend that accepts both the chunk replay and the
metadata upsert after a failing prefix: the bytes are re-chunked into
that backend, the side-car metadata is upserted, and both files are
removed. -/
theorem attemptFlush_success (csize now2 : Nat) (token : String) (entry : Entry)
    (buf : Buffer) (base : String) (pre post : List Pool) (p : Pool)
    (hpre : ∀ q ∈ pre, poolChunksErr q ≠ none)
    (hprem : ∀ q ∈ pre, q.metaErr ≠ none)
    (hpc : poolChunksErr p = none) (hpm : p.metaErr = none) :
    attemptFlushPendingOneToPools csize now2 base (pre ++ p :: post)
        [⟨base, some (token, entry), some buf⟩] =
      (pre ++ { p with
          chunkRows := p.chunkRows ++ rowsOf token 0 (chunksOf csize buf),
          uploads := upsertMeta p.uploads token entry now2 } :: post, [], true) := by
  have hfind : ([⟨base, some (token, entry), some buf⟩] : List PendingFile).find?
      (fun f => f.base == base) = some ⟨base, some (token, entry), some buf⟩ := by
    simp [List.find?]
  have hsave : saveChunksToDBAcrossPools csize token buf (pre ++ p :: post) =
      .ok (pre ++ storeChunks csize token buf p :: post, p.name) := by
    rw [saveChunksToDBAcrossPools_eval csize token buf _ (by simp),
      saveChunksGo_first_ok csize token buf p hpc pre post hpre none]
  have hmeta : saveMappingMetadataToDBAcrossPools token entry now2
      (pre ++ storeChunks csize token buf p :: post) =
      .ok (pre ++ { storeChunks csize token buf p with
          uploads := upsertMeta (storeChunks csize token buf p).uploads token entry now2 }
          :: post, some p.name) := by
    rw [saveMeta_eval token entry now2 _ (by simp),
      saveMetaGo_first_ok token entry now2 (storeChunks csize token buf p) hpm pre hprem
        post none]
    rfl
  have hfilter : ([⟨base, some (token, entry), some buf⟩] : List PendingFile).filter
      (fun g => g.base != base) = [] := by
    simp [List.filter]
  rw [attemptFlushPendingOneToPools, hfind]
  dsimp only []
  rw [hsave]
  dsimp only []
  rw [hmeta]
  dsimp only []
  rw [hfilter]
  rfl

/-- C3: when every configured backend rejects the chunked write, the
upload handler stages the full bytes plus the side-car descriptor to the
pending directory, tags the cached metadata `pending_disk`, leaves the
pools untouched, and still answers success with the token; afterwards a
single reconciliation pass run while some backend accepts writes (a
first accepting pool after a still-failing prefix) re-chunks the staged
bytes into that backend, upserts the side-car metadata, and deletes both
pending files. -/
theorem c3_pending_fallback_and_reconcile (csize : Nat) (token : String) (entry : Entry)
    (buf : Buffer) (now now2 : Nat) (pools0 pre post : List Pool) (p : Pool)
    (m0 : String → Option Entry)
    (hall : ∀ q ∈ pools0, poolChunksErr q ≠ none)
    (hpre : ∀ q ∈ pre, poolChunksErr q ≠ none)
    (hprem : ∀ q ∈ pre, q.metaErr ≠ none)
    (hpc : poolChunksErr p = none) (hpm : p.metaErr = none) :
    (uploadSave csize token entry buf now ⟨pools0, [], m0⟩).2 = .okPending token ∧
    (uploadSave csize token entry buf now ⟨pools0, [], m0⟩).1.pendingDir =
      [⟨pendingName token now, some (token, entry), some buf⟩] ∧
    (uploadSave csize token entry buf now ⟨pools0, [], m0⟩).1.mappings token =
      some { entry with storage := "pending_disk" } ∧
    (uploadSave csize token entry buf now ⟨pools0, [], m0⟩).1.pools = pools0 ∧
    pendingRetryPass csize now2 (pre ++ p :: post)
        (uploadSave csize token entry buf now ⟨pools0, [], m0⟩).1.pendingDir =
      (pre ++ { p with
          chunkRows := p.chunkRows ++ rowsOf token 0 (chunksOf csize buf),
          uploads := upsertMeta p.uploads token entry now2 } :: post, []) := by
  obtain ⟨e, he⟩ := saveChunks_error_of_all_fail csize token buf pools0 hall
  have hup : uploadSave csize token entry buf now ⟨pools0, [], m0⟩ =
      (⟨pools0, [⟨pendingName token now, some (token, entry), some buf⟩],
        objSet m0 token { entry with storage := "pending_disk" }⟩, .okPending token) := by
    rw [uploadSave, he]
    rfl
  rw [hup]
  refine ⟨rfl, rfl, ?_, rfl, ?_⟩
  · dsimp only []
    rw [objSet, if_pos (beq_self_eq_true token)]
  · dsimp only []
    rw [pendingRetryPass]
    dsimp only [List.filter, List.map, Option.isSome]
    rw [List.foldl_cons, List.foldl_nil]
    dsimp only []
    rw [attemptFlush_success csize now2 token entry buf (pendingName token now)
      pre post p hpre hprem hpc hpm]

/-- Witness for `c3_pending_fallback_and_reconcile`: one backend that
rejects the transaction forces the pending staging; the healed backend
then takes the 2-byte chunks of the 3-byte staged payload and the
metadata row, and the pending directory empties. -/
theorem c3_pending_fallback_and_reconcile_witness :
    (uploadSave 2 "T" ⟨"T", "f", "f", 3, "m", 7, "db", none⟩ [1, 2, 3] 0
        ⟨[{ name := "A", txErr := some "full" }], [], fun _ => none⟩).2 =
      .okPending "T" ∧
    (uploadSave 2 "T" ⟨"T", "f", "f", 3, "m", 7, "db", none⟩ [1, 2, 3] 0
        ⟨[{ name := "A", txErr := some "full" }], [], fun _ => none⟩).1.pendingDir =
      [⟨pendingName "T" 0, some ("T", ⟨"T", "f", "f", 3, "m", 7, "db", none⟩),
        some [1, 2, 3]⟩] ∧
    (uploadSave 2 "T" ⟨"T", "f", "f", 3, "m", 7, "db", none⟩ [1, 2, 3] 0
        ⟨[{ name := "A", txErr := some "full" }], [], fun _ => none⟩).1.mappings "T" =
      some ⟨"T", "f", "f", 3, "m", 7, "pending_disk", none⟩ ∧
    (uploadSave 2 "T" ⟨"T", "f", "f", 3, "m", 7, "db", none⟩ [1, 2, 3] 0
        ⟨[{ name := "A", txErr := some "full" }], [], fun _ => none⟩).1.pools =
      [{ name := "A", txErr := some "full" }] ∧
    pendingRetryPass 2 1 [{ name := "A" }]
        (uploadSave 2 "T" ⟨"T", "f", "f", 3, "m", 7, "db", none⟩ [1, 2, 3] 0
          ⟨[{ name := "A", txErr := some "full" }], [], fun _ => none⟩).1.pendingDir =
      ([{ name := "A",
          chunkRows := [("T", 0, [1, 2]), ("T", 1, [3])],
          uploads := [⟨"T", ⟨"T", "f", "f", 3, "m", 7, "db", none⟩, none, 1⟩] }], []) := by
  have h := c3_pending_fallback_and_reconcile 2 "T" ⟨"T", "f", "f", 3, "m", 7, "db", none⟩
    [1, 2, 3] 0 1 [{ name := "A", txErr := some "full" }] [] []
    { name := "A" } (fun _ => none)
    (by decide) (by decide) (by decide) (by decide) (by decide)
  exact ⟨h.1, h.2.1, h.2.2.1, h.2.2.2.1, h.2.2.2.2⟩

end TFTest
